import Mathlib

/-! Adjacency-matrix graph (`graph.h`).

A shallow embedding of `Graph<V, E, D>` from `src/graph.h`.

* `std::vector<T>` is a `List T`; an access, write or erase outside the
  vector is undefined behaviour in C++ and is `none` here.
* `std::map<V,int>` is an association list with at most one entry per key;
  `find`, `operator[]` (which inserts a zero entry for a missing key) and
  `erase` are modelled separately.  The source never iterates over the map, so
  the order of the entries is not observable.
* `int` is `Int`, without wrap-around: `e_count++` is `e_count + 1` and
  `e_count--` is `e_count - 1`, which is what the code computes as long as the
  counter stays within `int` (`int_min`, `int_max`); leaving that range takes
  more than `2^31` increments or decrements.  A statement about the value of
  `num_edges()` after one more increment carries the range as a hypothesis.
* `V()` and `E()` are `default`.
* The template parameter `D` is a `Bool` argument; the `Bool2Type<true>` and
  `Bool2Type<false>` overloads are the `_directed` and `_undirected` functions.
* Every member function of the source is non-`const`; those that touch
  `vertex_index` through `operator[]` return the graph they leave behind.
-/

namespace AdjMatrixGraph

/-! ## Containers -/

/-- Read `xs[i]` of a `std::vector`. -/
def vec_at {α : Type} (xs : List α) (i : Int) : Option α :=
  if 0 ≤ i then xs[i.toNat]? else none

/-- Write `xs[i] = a` of a `std::vector`. -/
def vec_set {α : Type} (xs : List α) (i : Int) (a : α) : Option (List α) :=
  if 0 ≤ i ∧ i.toNat < xs.length then some (xs.set i.toNat a) else none

/-- Erase `xs.erase(xs.begin() + i)` of a `std::vector`. -/
def vec_erase {α : Type} (xs : List α) (i : Int) : Option (List α) :=
  if 0 ≤ i ∧ i.toNat < xs.length then some (xs.eraseIdx i.toNat) else none

/-- Read `m[r][c]` of a vector of vectors. -/
def mat_at {α : Type} (m : List (List α)) (r c : Int) : Option α :=
  (vec_at m r).bind (fun row => vec_at row c)

/-- Write `m[r][c] = a` of a vector of vectors. -/
def mat_set {α : Type} (m : List (List α)) (r c : Int) (a : α) : Option (List (List α)) :=
  (vec_at m r).bind (fun row => (vec_set row c a).bind (fun row2 => vec_set m r row2))

/-- Lookup `m.find(k)` of a `std::map<V,int>`: the stored value, if any. -/
def map_find {V : Type} [DecidableEq V] : List (V × Int) → V → Option Int
  | [], _ => none
  | (k2, x) :: rest, k => if k2 = k then some x else map_find rest k

/-- Assignment `m[k] = x` of a `std::map<V,int>`: overwrite the entry of `k`,
or insert one when `k` has none. -/
def map_assign {V : Type} [DecidableEq V] : List (V × Int) → V → Int → List (V × Int)
  | [], k, x => [(k, x)]
  | (k2, y) :: rest, k, x =>
    if k2 = k then (k2, x) :: rest else (k2, y) :: map_assign rest k x

/-- Read `m[k]` of a `std::map<V,int>`: the stored value and the map
afterwards; a missing key is inserted with the value `int()`, that is `0`. -/
def map_index {V : Type} [DecidableEq V] (m : List (V × Int)) (k : V) : Int × List (V × Int) :=
  match map_find m k with
  | some x => (x, m)
  | none => (0, map_assign m k 0)

/-- Erase `m.erase(k)` of a `std::map<V,int>`. -/
def map_erase {V : Type} [DecidableEq V] (m : List (V × Int)) (k : V) : List (V × Int) :=
  m.filter (fun p => decide (p.1 ≠ k))

/-- Run `body i` for `n` consecutive values of `i`, starting at `i`. -/
def for_steps {σ : Type} (body : Int → σ → Option σ) : Nat → Int → σ → Option σ
  | 0, _, s => some s
  | n + 1, i, s => (body i s).bind (fun s2 => for_steps body n (i + 1) s2)

/-- The loop `for (int i = lo; i < hi; i++) body`, for a body that leaves
`hi` alone. -/
def for_range {σ : Type} (lo hi : Int) (body : Int → σ → Option σ) (s : σ) : Option σ :=
  for_steps body (hi - lo).toNat lo s

/-! ## The graph -/

/-- The private members of `Graph<V,E,D>`. -/
structure Graph (V E : Type) where
  v_count : Int
  e_count : Int
  vertex_index : List (V × Int)
  index_vertex : List V
  adj_matrix : List (List E)
  deriving DecidableEq, Repr

section Operations

variable {V E : Type} [DecidableEq V] [DecidableEq E] [Inhabited V] [Inhabited E]

/-- The constructor `Graph()`. -/
def empty_graph : Graph V E :=
  { v_count := 0, e_count := 0, vertex_index := [], index_vertex := [], adj_matrix := [] }

/-- The body of the first loop of `add_vertex`: `adj_matrix[r].push_back(E())`. -/
def push_cell (r : Int) (m : List (List E)) : Option (List (List E)) :=
  (vec_at m r).bind (fun row => vec_set m r (row ++ [default]))

/-- Member `add_vertex`. -/
def add_vertex (g : Graph V E) (v : V) : Option (Graph V E) :=
  if g.v_count + 1 < 0 then none
  else
    (for_range 0 (g.v_count + 1) (fun r m => push_cell r m)
        (g.adj_matrix ++ [List.replicate (g.v_count + 1).toNat default])).bind (fun adj1 =>
      (for_range 0 (g.v_count + 1) (fun _ m => push_cell g.v_count m) adj1).bind (fun adj2 =>
        some { v_count := g.v_count + 1
               e_count := g.e_count
               vertex_index := map_assign g.vertex_index v g.v_count
               index_vertex := g.index_vertex ++ [v]
               adj_matrix := adj2 }))

/-- Member `has_vertex`. -/
def has_vertex (g : Graph V E) (v : V) : Bool :=
  (map_find g.vertex_index v).isSome

/-- Member `has_edge`: the answer and the graph left behind (both lookups go
through `operator[]`). -/
def has_edge (g : Graph V E) (v1 v2 : V) : Option (Bool × Graph V E) :=
  let ri := map_index g.vertex_index v1
  let ci := map_index ri.2 v2
  (mat_at g.adj_matrix ri.1 ci.1).map (fun x =>
    (decide (x ≠ default), { g with vertex_index := ci.2 }))

/-- The body of the loop of `get_neighbors`, for the row `r`. -/
def neighbor_step (g : Graph V E) (r : Int) (c : Int) (neighbors : List V) : Option (List V) :=
  (mat_at g.adj_matrix r c).bind (fun x =>
    if x ≠ default then (vec_at g.index_vertex c).map (fun u => neighbors ++ [u])
    else some neighbors)

/-- Member `get_neighbors`. -/
def get_neighbors (g : Graph V E) (v : V) : Option (List V × Graph V E) :=
  if has_vertex g v then
    let ri := map_index g.vertex_index v
    (for_range 0 g.v_count (neighbor_step g ri.1) []).map (fun neighbors =>
      (neighbors, { g with vertex_index := ri.2 }))
  else some ([], g)

/-- Member `num_vertices`. -/
def num_vertices (g : Graph V E) : Int := g.v_count

/-- Member `num_edges`. -/
def num_edges (g : Graph V E) : Int := g.e_count

/-- Member `empty`. -/
def empty (g : Graph V E) : Bool := decide (g.v_count = 0)

/-- Member `get_vertex`. -/
def get_vertex (g : Graph V E) (v : V) : V :=
  if has_vertex g v then v else default

/-- Member `get_edge`. -/
def get_edge (g : Graph V E) (v1 v2 : V) : Option (E × Graph V E) :=
  if has_vertex g v1 && has_vertex g v2 then
    let ri := map_index g.vertex_index v1
    let ci := map_index ri.2 v2
    (mat_at g.adj_matrix ri.1 ci.1).map (fun x => (x, { g with vertex_index := ci.2 }))
  else some (default, g)

/-- Overload `add_edge(Bool2Type<true>, ...)`.  The increment `e_count++` is
`e_count + 1`: exact for `e_count` in `[int_min, int_max)`. -/
def add_edge_directed (g : Graph V E) (v1 v2 : V) (weight : E) : Option (Graph V E) :=
  if !has_vertex g v1 || !has_vertex g v2 then some g
  else
    let ri := map_index g.vertex_index v1
    let ci := map_index ri.2 v2
    (mat_set g.adj_matrix ri.1 ci.1 weight).map (fun adj =>
      { g with vertex_index := ci.2, adj_matrix := adj, e_count := g.e_count + 1 })

/-- The loop `for (E c : row) if (c != E()) e_count--;`. -/
def count_down_row (row : List E) (e_count : Int) : Int :=
  row.foldl (fun e c => if c ≠ default then e - 1 else e) e_count

/-- The body of `for (std::vector<E> row : adj_matrix)` in the directed
`remove_vertex`: `row` is a copy, so the erase acts on the copy only. -/
def column_step_directed (r : Int) (e_count : Int) (row : List E) : Option Int :=
  (vec_at row r).bind (fun x =>
    (vec_erase row r).map (fun _ => if x ≠ default then e_count - 1 else e_count))

/-- The body of `for (std::vector<E> row : adj_matrix)` in the undirected
`remove_vertex`: `row` is a copy, so the erase acts on the copy only. -/
def column_step_undirected (r : Int) (row : List E) : Option Unit :=
  (vec_erase row r).map (fun _ => ())

/-- The body of the renumbering loop: `vertex_index[index_vertex[i]] -= 1`. -/
def renumber_step (index_vertex : List V) (i : Int) (m : List (V × Int)) :
    Option (List (V × Int)) :=
  (vec_at index_vertex i).map (fun k =>
    map_assign (map_index m k).2 k ((map_index m k).1 - 1))

/-- Overload `remove_vertex(Bool2Type<true>, ...)`. -/
def remove_vertex_directed (g : Graph V E) (v : V) : Option (V × Graph V E) :=
  if has_vertex g v then
    let ri := map_index g.vertex_index v
    (vec_at g.adj_matrix ri.1).bind (fun row_r =>
      (vec_erase g.adj_matrix ri.1).bind (fun adj =>
        (adj.foldlM (column_step_directed ri.1) (count_down_row row_r g.e_count)).bind (fun e2 =>
          (for_range (ri.1 + 1) g.v_count (renumber_step g.index_vertex) ri.2).bind (fun vi =>
            (vec_erase g.index_vertex ri.1).map (fun iv =>
              (default,
                { v_count := g.v_count - 1
                  e_count := e2
                  vertex_index := map_erase vi v
                  index_vertex := iv
                  adj_matrix := adj }))))))
  else some (default, g)

/-- Overload `remove_edge(Bool2Type<true>, ...)`. -/
def remove_edge_directed (g : Graph V E) (v1 v2 : V) : Option (E × Graph V E) :=
  (has_edge g v1 v2).bind (fun bg =>
    if bg.1 then
      let ri := map_index bg.2.vertex_index v1
      let ci := map_index ri.2 v2
      (mat_at bg.2.adj_matrix ri.1 ci.1).bind (fun edge =>
        (mat_set bg.2.adj_matrix ri.1 ci.1 default).map (fun adj =>
          (edge, { bg.2 with vertex_index := ci.2, adj_matrix := adj,
                             e_count := bg.2.e_count - 1 })))
    else some (default, bg.2))

/-- Overload `add_edge(Bool2Type<false>, ...)`.  The increment `e_count++` is
`e_count + 1`: exact for `e_count` in `[int_min, int_max)`. -/
def add_edge_undirected (g : Graph V E) (v1 v2 : V) (weight : E) : Option (Graph V E) :=
  if !has_vertex g v1 || !has_vertex g v2 then some g
  else
    let ri := map_index g.vertex_index v1
    let ci := map_index ri.2 v2
    (mat_set g.adj_matrix ri.1 ci.1 weight).bind (fun adj1 =>
      (mat_set adj1 ci.1 ri.1 weight).map (fun adj2 =>
        { g with vertex_index := ci.2, adj_matrix := adj2, e_count := g.e_count + 1 }))

/-- Overload `remove_vertex(Bool2Type<false>, ...)`. -/
def remove_vertex_undirected (g : Graph V E) (v : V) : Option (V × Graph V E) :=
  if has_vertex g v then
    let ri := map_index g.vertex_index v
    (vec_at g.adj_matrix ri.1).bind (fun row_r =>
      (vec_erase g.adj_matrix ri.1).bind (fun adj =>
        (adj.foldlM (fun _ row => column_step_undirected ri.1 row) ()).bind (fun _ =>
          (for_range (ri.1 + 1) g.v_count (renumber_step g.index_vertex) ri.2).bind (fun vi =>
            (vec_erase g.index_vertex ri.1).map (fun iv =>
              (default,
                { v_count := g.v_count - 1
                  e_count := count_down_row row_r g.e_count
                  vertex_index := map_erase vi v
                  index_vertex := iv
                  adj_matrix := adj }))))))
  else some (default, g)

/-- Overload `remove_edge(Bool2Type<false>, ...)`. -/
def remove_edge_undirected (g : Graph V E) (v1 v2 : V) : Option (E × Graph V E) :=
  (has_edge g v1 v2).bind (fun bg =>
    if bg.1 then
      let ri := map_index bg.2.vertex_index v1
      let ci := map_index ri.2 v2
      (mat_at bg.2.adj_matrix ri.1 ci.1).bind (fun edge =>
        (mat_set bg.2.adj_matrix ri.1 ci.1 default).bind (fun adj1 =>
          (mat_set adj1 ci.1 ri.1 default).map (fun adj2 =>
            (edge, { bg.2 with vertex_index := ci.2, adj_matrix := adj2,
                               e_count := bg.2.e_count - 1 }))))
    else some (default, bg.2))

/-- Public `add_edge`: dispatch on the template parameter `D`. -/
def add_edge (D : Bool) (g : Graph V E) (v1 v2 : V) (weight : E) : Option (Graph V E) :=
  if D then add_edge_directed g v1 v2 weight else add_edge_undirected g v1 v2 weight

/-- Public `remove_vertex`: dispatch on the template parameter `D`. -/
def remove_vertex (D : Bool) (g : Graph V E) (v : V) : Option (V × Graph V E) :=
  if D then remove_vertex_directed g v else remove_vertex_undirected g v

/-- Public `remove_edge`: dispatch on the template parameter `D`. -/
def remove_edge (D : Bool) (g : Graph V E) (v1 v2 : V) : Option (E × Graph V E) :=
  if D then remove_edge_directed g v1 v2 else remove_edge_undirected g v1 v2

end Operations

/-! ## Call sequences -/

/-- A call of one of the public mutating or `operator[]`-using members. -/
inductive Op (V E : Type) where
  | add_vertex (v : V)
  | add_edge (v1 v2 : V) (weight : E)
  | remove_edge (v1 v2 : V)
  | remove_vertex (v : V)
  | has_edge (v1 v2 : V)
  deriving DecidableEq, Repr

section Runs

variable {V E : Type} [DecidableEq V] [DecidableEq E] [Inhabited V] [Inhabited E]

/-- The graph left behind by one call (`none`: the call ran into undefined
behaviour). -/
def step (D : Bool) (g : Graph V E) : Op V E → Option (Graph V E)
  | .add_vertex v => add_vertex g v
  | .add_edge v1 v2 weight => add_edge D g v1 v2 weight
  | .remove_edge v1 v2 => (remove_edge D g v1 v2).map Prod.snd
  | .remove_vertex v => (remove_vertex D g v).map Prod.snd
  | .has_edge v1 v2 => (has_edge g v1 v2).map Prod.snd

/-- The graph reached from `g` by a sequence of calls, each of which has to
pass `allowed` in the state it is made in. -/
def run (D : Bool) (allowed : Graph V E → Op V E → Bool) :
    Graph V E → List (Op V E) → Option (Graph V E)
  | g, [] => some g
  | g, op :: ops =>
    if allowed g op then (step D g op).bind (fun g2 => run D allowed g2 ops) else none

/-- No restriction on the calls. -/
def any_use (_ : Graph V E) (_ : Op V E) : Bool := true

/-- Calls that build a graph: `add_vertex` with a value that is not a vertex
yet, and `add_edge` between two vertices. -/
def build_use (g : Graph V E) : Op V E → Bool
  | .add_vertex v => !has_vertex g v
  | .add_edge v1 v2 _ => has_vertex g v1 && has_vertex g v2
  | _ => false

/-- Calls on present vertices: `add_vertex` with a value that is not a vertex
yet; `add_edge`, `remove_edge` and `remove_vertex` on vertices of the graph. -/
def present_use (g : Graph V E) : Op V E → Bool
  | .add_vertex v => !has_vertex g v
  | .add_edge v1 v2 _ => has_vertex g v1 && has_vertex g v2
  | .remove_edge v1 v2 => has_vertex g v1 && has_vertex g v2
  | .remove_vertex v => has_vertex g v
  | .has_edge _ _ => false

/-- Calls that respect the preconditions of `add_vertex`, `has_edge` and
`remove_edge`: `add_vertex` with a value that is not a vertex yet, `has_edge`
and `remove_edge` between two vertices; `add_edge` and `remove_vertex` with any
arguments. -/
def careful_use (g : Graph V E) : Op V E → Bool
  | .add_vertex v => !has_vertex g v
  | .add_edge _ _ _ => true
  | .remove_edge v1 v2 => has_vertex g v1 && has_vertex g v2
  | .remove_vertex _ => true
  | .has_edge v1 v2 => has_vertex g v1 && has_vertex g v2

/-- The weight `get_edge` reports, without the graph it leaves behind. -/
def edge_weight (g : Graph V E) (v1 v2 : V) : Option E :=
  (get_edge g v1 v2).map Prod.fst

/-- The number of cells of a matrix that differ from `E()`. -/
def count_cells (m : List (List E)) : Nat :=
  (m.map (fun row => row.countP (fun c => decide (c ≠ default)))).sum

/-- The representation invariant of well-formed use: `v_count` is the length
of `index_vertex`; `vertex_index` has one entry per key and sends a value to
`i` exactly when `index_vertex[i]` is that value; the matrix has `v_count` rows
of at least `v_count` cells each. -/
structure WellFormed (g : Graph V E) : Prop where
  count_eq : g.v_count = (g.index_vertex.length : Int)
  keys_nodup : (g.vertex_index.map Prod.fst).Nodup
  find_iff : ∀ (v : V) (x : Int), map_find g.vertex_index v = some x ↔
    ∃ i : Nat, x = (i : Int) ∧ g.index_vertex[i]? = some v
  rows : g.adj_matrix.length = g.index_vertex.length
  row_length : ∀ row ∈ g.adj_matrix, g.index_vertex.length ≤ row.length

/-- The cell `(r, c)` of a matrix, and `E()` where the matrix has no such cell. -/
def cell_or_default (m : List (List E)) (r c : Nat) : E :=
  (mat_at m (r : Int) (c : Int)).getD default

/-- The matrix has `num_vertices()` rows of `num_vertices()` cells each. -/
def is_square (g : Graph V E) : Bool :=
  decide ((g.adj_matrix.length : Int) = num_vertices g) &&
    g.adj_matrix.all (fun row => decide ((row.length : Int) = num_vertices g))

/-- The graph after `add_vertex` on each value of a list, in order. -/
def add_vertices : Graph V E → List V → Option (Graph V E)
  | g, [] => some g
  | g, v :: vs => (add_vertex g v).bind (fun g2 => add_vertices g2 vs)

/-- Whether `get_edge(v1, v2)` reports a weight other than `E()`. -/
def edge_present (g : Graph V E) (v1 v2 : V) : Bool :=
  match edge_weight g v1 v2 with
  | some x => decide (x ≠ default)
  | none => false

/-- Calls on edges between present vertices: `add_vertex` with a value that is
not a vertex yet; `add_edge` and `remove_edge` between two vertices. -/
def edge_use (g : Graph V E) : Op V E → Bool
  | .add_vertex v => !has_vertex g v
  | .add_edge v1 v2 _ => has_vertex g v1 && has_vertex g v2
  | .remove_edge v1 v2 => has_vertex g v1 && has_vertex g v2
  | _ => false

end Runs

/-! ## Concrete graphs over `int` vertices and `int` weights -/

/-- After `add_vertex(1)` on the empty graph. -/
def one_vertex : Graph Int Int :=
  { v_count := 1, e_count := 0, vertex_index := [(1, 0)], index_vertex := [1],
    adj_matrix := [[0, 0, 0]] }

/-- After `add_vertex(2)` on the empty graph. -/
def vertex_two : Graph Int Int :=
  { v_count := 1, e_count := 0, vertex_index := [(2, 0)], index_vertex := [2],
    adj_matrix := [[0, 0, 0]] }

/-- After `add_vertex(1)` and `add_edge(1, 1, 5)`; the same in both modes. -/
def one_loop : Graph Int Int :=
  { v_count := 1, e_count := 1, vertex_index := [(1, 0)], index_vertex := [1],
    adj_matrix := [[5, 0, 0]] }

/-- Directed: vertices 1, 2, 3 and the edges `1 -> 2` (5), `2 -> 3` (7). -/
def path_graph : Graph Int Int :=
  { v_count := 3, e_count := 2, vertex_index := [(1, 0), (2, 1), (3, 2)],
    index_vertex := [1, 2, 3],
    adj_matrix := [[0, 5, 0, 0, 0], [0, 0, 7, 0, 0, 0], [0, 0, 0, 0, 0, 0, 0]] }

/-- What `remove_vertex(2)` leaves of `path_graph`. -/
def path_graph_cut : Graph Int Int :=
  { v_count := 2, e_count := 0, vertex_index := [(1, 0), (3, 1)], index_vertex := [1, 3],
    adj_matrix := [[0, 5, 0, 0, 0], [0, 0, 0, 0, 0, 0, 0]] }

/-- After `add_vertex(1)` twice. -/
def twice_added : Graph Int Int :=
  { v_count := 2, e_count := 0, vertex_index := [(1, 1)], index_vertex := [1, 1],
    adj_matrix := [[0, 0, 0, 0], [0, 0, 0, 0, 0]] }

/-- Undirected: vertices 1, 2, 3 and the edge `1 - 3` (5), after
`remove_vertex(1)`. -/
def far_edge_cut : Graph Int Int :=
  { v_count := 2, e_count := 0, vertex_index := [(2, 0), (3, 1)], index_vertex := [2, 3],
    adj_matrix := [[0, 0, 0, 0, 0, 0], [5, 0, 0, 0, 0, 0, 0]] }

/-- Vertices 1, 2 and the edge `1 -> 2` (5), directed. -/
def one_edge : Graph Int Int :=
  { v_count := 2, e_count := 1, vertex_index := [(1, 0), (2, 1)], index_vertex := [1, 2],
    adj_matrix := [[0, 5, 0, 0], [0, 0, 0, 0, 0]] }

/-- Directed: vertices 1, 2, 3 and the edge `1 -> 2` (5), after
`remove_vertex(1)`. -/
def near_edge_cut : Graph Int Int :=
  { v_count := 2, e_count := 0, vertex_index := [(2, 0), (3, 1)], index_vertex := [2, 3],
    adj_matrix := [[0, 0, 0, 0, 0, 0], [0, 0, 0, 0, 0, 0, 0]] }

/-- After `add_vertex(1)` and `has_edge(2, 3)`. -/
def one_vertex_asked : Graph Int Int :=
  { v_count := 1, e_count := 0, vertex_index := [(1, 0), (2, 0), (3, 0)], index_vertex := [1],
    adj_matrix := [[0, 0, 0]] }

/-- Directed: vertices 1, 2 and the edge `1 -> 2` (5), after `remove_vertex(2)`. -/
def forward_edge_cut : Graph Int Int :=
  { v_count := 1, e_count := 0, vertex_index := [(1, 0)], index_vertex := [1],
    adj_matrix := [[0, 5, 0, 0]] }

/-- What `add_vertex(3)` makes of `forward_edge_cut`. -/
def forward_edge_cut_grown : Graph Int Int :=
  { v_count := 2, e_count := 0, vertex_index := [(1, 0), (3, 1)], index_vertex := [1, 3],
    adj_matrix := [[0, 5, 0, 0, 0], [0, 0, 0, 0, 0]] }

/-- After `add_vertex(1)` and `add_vertex(2)`. -/
def two_vertices : Graph Int Int :=
  { v_count := 2, e_count := 0, vertex_index := [(1, 0), (2, 1)], index_vertex := [1, 2],
    adj_matrix := [[0, 0, 0, 0], [0, 0, 0, 0, 0]] }

end AdjMatrixGraph

/-! ## Lemmas on the containers -/

namespace AdjMatrixGraph

section ContainerLemmas

variable {α : Type}

theorem vec_at_cast (xs : List α) (n : Nat) : vec_at xs (n : Int) = xs[n]? := by
  simp [vec_at]

theorem vec_set_cast (xs : List α) (n : Nat) (a : α) (h : n < xs.length) :
    vec_set xs (n : Int) a = some (xs.set n a) := by
  simp [vec_set, h]

theorem vec_erase_cast (xs : List α) (n : Nat) (h : n < xs.length) :
    vec_erase xs (n : Int) = some (xs.eraseIdx n) := by
  simp [vec_erase, h]

theorem mat_at_cast (m : List (List α)) (r c : Nat) :
    mat_at m (r : Int) (c : Int) = (m[r]?).bind (fun row => row[c]?) := by
  simp [mat_at, vec_at_cast]

theorem mat_set_cast (m : List (List α)) (r c : Nat) (a : α) (row : List α)
    (hr : m[r]? = some row) (hc : c < row.length) :
    mat_set m (r : Int) (c : Int) a = some (m.set r (row.set c a)) := by
  have hlt : r < m.length := by
    rcases List.getElem?_eq_some_iff.1 hr with ⟨h, _⟩
    exact h
  simp [mat_set, vec_at_cast, hr, vec_set_cast, hc, hlt]

end ContainerLemmas

section MapLemmas

variable {V : Type} [DecidableEq V]

theorem map_find_eq_none_iff (m : List (V × Int)) (k : V) :
    map_find m k = none ↔ k ∉ m.map Prod.fst := by
  induction m with
  | nil => simp [map_find]
  | cons p rest ih =>
    obtain ⟨k2, x⟩ := p
    by_cases h : k2 = k
    · simp [map_find, h]
    · simp [map_find, h, ih, Ne.symm h]

theorem map_find_assign (m : List (V × Int)) (k : V) (x : Int) (k' : V) :
    map_find (map_assign m k x) k' = if k = k' then some x else map_find m k' := by
  induction m with
  | nil => simp [map_find, map_assign]
  | cons p rest ih =>
    obtain ⟨k2, y⟩ := p
    by_cases h : k2 = k
    · subst h
      by_cases h2 : k2 = k' <;> simp [map_find, map_assign, h2]
    · by_cases h2 : k2 = k'
      · subst h2
        simp [map_find, map_assign, h, Ne.symm h]
      · simp [map_find, map_assign, h, h2, ih]

theorem keys_assign_present (m : List (V × Int)) (k : V) (x y : Int)
    (h : map_find m k = some y) :
    (map_assign m k x).map Prod.fst = m.map Prod.fst := by
  induction m with
  | nil => simp [map_find] at h
  | cons p rest ih =>
    obtain ⟨k2, z⟩ := p
    by_cases h2 : k2 = k
    · simp [map_assign, h2]
    · simp [map_find, h2] at h
      simp [map_assign, h2, ih h]

theorem assign_absent (m : List (V × Int)) (k : V) (x : Int)
    (h : map_find m k = none) : map_assign m k x = m ++ [(k, x)] := by
  induction m with
  | nil => simp [map_assign]
  | cons p rest ih =>
    obtain ⟨k2, z⟩ := p
    by_cases h2 : k2 = k
    · simp [map_find, h2] at h
    · simp [map_find, h2] at h
      simp [map_assign, h2, ih h]

theorem map_index_present (m : List (V × Int)) (k : V) (x : Int)
    (h : map_find m k = some x) : map_index m k = (x, m) := by
  simp [map_index, h]

theorem map_find_erase (m : List (V × Int)) (k k' : V) :
    map_find (map_erase m k) k' = if k = k' then none else map_find m k' := by
  induction m with
  | nil => simp [map_find, map_erase]
  | cons p rest ih =>
    obtain ⟨k2, z⟩ := p
    simp only [map_erase] at ih ⊢
    simp only [List.filter_cons]
    by_cases h : k2 = k <;> by_cases h2 : k2 = k' <;> simp_all [map_find]
    exact fun h3 => h h3.symm

theorem keys_erase (m : List (V × Int)) (k : V) :
    (map_erase m k).map Prod.fst = (m.map Prod.fst).filter (fun a => decide (a ≠ k)) := by
  induction m with
  | nil => simp [map_erase]
  | cons p rest ih =>
    obtain ⟨k2, z⟩ := p
    simp only [map_erase] at ih ⊢
    simp only [List.filter_cons, List.map_cons]
    by_cases h : k2 = k <;> simp_all

end MapLemmas

end AdjMatrixGraph

/-! ## The loops of `add_vertex` -/

namespace AdjMatrixGraph
section AddVertexLoops
variable {V E : Type} [DecidableEq V] [DecidableEq E] [Inhabited V] [Inhabited E]

omit [DecidableEq E] in
theorem push_cell_append (pre rest : List (List E)) (row : List E) :
    push_cell (pre.length : Int) (pre ++ row :: rest) = some (pre ++ (row ++ [default]) :: rest) := by
  have h1 : (pre ++ row :: rest)[pre.length]? = some row := by
    rw [List.getElem?_append_right (le_refl _)]
    simp
  have h2 : (pre ++ row :: rest).set pre.length (row ++ [default]) =
      pre ++ (row ++ [default]) :: rest := by
    rw [List.set_append_right _ _ (le_refl _)]
    simp
  have h3 : pre.length < (pre ++ row :: rest).length := by simp
  simp only [push_cell, vec_at_cast, h1, Option.some_bind, vec_set_cast _ _ _ h3, h2]

omit [DecidableEq E] in
theorem for_steps_push_all (rest pre : List (List E)) :
    for_steps (fun r m => push_cell r m) rest.length (pre.length : Int) (pre ++ rest) =
      some (pre ++ rest.map (fun row => row ++ [default])) := by
  induction rest generalizing pre with
  | nil => simp [for_steps]
  | cons row rest ih =>
    have h := ih (pre ++ [row ++ [default]])
    simp only [List.length_append, List.length_singleton, List.append_assoc,
      List.singleton_append, Nat.cast_add, Nat.cast_one] at h
    simp [for_steps, push_cell_append, h]

omit [DecidableEq E] in
theorem for_steps_push_last (k : Nat) (i : Int) (pre : List (List E)) (row : List E) :
    for_steps (fun _ m => push_cell (pre.length : Int) m) k i (pre ++ [row]) =
      some (pre ++ [row ++ List.replicate k default]) := by
  induction k generalizing i row with
  | zero => simp [for_steps]
  | succ k ih =>
    simp [for_steps, push_cell_append, ih, List.replicate_succ]

omit [Inhabited V] [DecidableEq E] in
theorem add_vertex_eq (g : Graph V E) (v : V) (n : Nat) (hn : g.v_count = (n : Int))
    (hrows : g.adj_matrix.length = n) :
    add_vertex g v = some
      { v_count := g.v_count + 1
        e_count := g.e_count
        vertex_index := map_assign g.vertex_index v g.v_count
        index_vertex := g.index_vertex ++ [v]
        adj_matrix := g.adj_matrix.map (fun row => row ++ [default]) ++
          [List.replicate (n + 1) default ++ default :: List.replicate (n + 1) default] } := by
  have h1 : ¬ ((n : Int) + 1 < 0) := by omega
  have h2 : ((n : Int) + 1).toNat = n + 1 := by omega
  have h3 : ((n : Int) + 1 - 0).toNat = (g.adj_matrix ++ [List.replicate (n + 1) (default : E)]).length := by
    simp [hrows]
  have h4 := for_steps_push_all (g.adj_matrix ++ [List.replicate (n + 1) (default : E)]) []
  simp only [List.length_nil, Nat.cast_zero, List.nil_append] at h4
  have h5 := for_steps_push_last (n + 1) 0 (g.adj_matrix.map (fun row => row ++ [(default : E)]))
    (List.replicate (n + 1) (default : E) ++ [default])
  simp only [List.length_map, hrows] at h5
  unfold add_vertex for_range
  rw [hn, if_neg h1, h2, h3, h4]
  simp only [Option.some_bind, List.map_append, List.map_cons, List.map_nil, List.length_append,
    List.length_singleton, hrows]
  rw [h5]
  simp
end AddVertexLoops
end AdjMatrixGraph

/-! ## The representation invariant -/

namespace AdjMatrixGraph
section WellFormedLemmas
variable {V E : Type} [DecidableEq V] [DecidableEq E] [Inhabited V] [Inhabited E]

omit [DecidableEq E] [Inhabited V] [Inhabited E] in
theorem wf_empty_graph : WellFormed (empty_graph : Graph V E) where
  count_eq := by simp [empty_graph]
  keys_nodup := by simp [empty_graph]
  find_iff := by simp [empty_graph, map_find]
  rows := by simp [empty_graph]
  row_length := by simp [empty_graph]

omit [DecidableEq E] [Inhabited V] [Inhabited E] in
theorem WellFormed.index_of_has_vertex {g : Graph V E} (h : WellFormed g) {v : V}
    (hv : has_vertex g v = true) :
    ∃ r : Nat, r < g.index_vertex.length ∧ map_find g.vertex_index v = some (r : Int) ∧
      g.index_vertex[r]? = some v := by
  unfold has_vertex at hv
  obtain ⟨x, hx⟩ := Option.isSome_iff_exists.1 hv
  obtain ⟨i, hi, hs⟩ := (h.find_iff v x).1 hx
  refine ⟨i, ?_, ?_, hs⟩
  · exact (List.getElem?_eq_some_iff.1 hs).1
  · rw [hx, hi]

omit [DecidableEq E] [Inhabited V] [Inhabited E] in
theorem WellFormed.find_of_seq {g : Graph V E} (h : WellFormed g) {v : V} {i : Nat}
    (hs : g.index_vertex[i]? = some v) : map_find g.vertex_index v = some (i : Int) :=
  (h.find_iff v i).2 ⟨i, rfl, hs⟩

omit [DecidableEq E] [Inhabited V] [Inhabited E] in
theorem WellFormed.seq_injective {g : Graph V E} (h : WellFormed g) {v : V} {i j : Nat}
    (hi : g.index_vertex[i]? = some v) (hj : g.index_vertex[j]? = some v) : i = j := by
  have h1 := h.find_of_seq hi
  have h2 := h.find_of_seq hj
  rw [h1] at h2
  exact_mod_cast Option.some.inj h2

omit [DecidableEq E] [Inhabited V] [Inhabited E] in
theorem WellFormed.row_of_lt {g : Graph V E} (h : WellFormed g) {r : Nat}
    (hr : r < g.index_vertex.length) :
    ∃ row, g.adj_matrix[r]? = some row ∧ g.index_vertex.length ≤ row.length := by
  have hlt : r < g.adj_matrix.length := by rw [h.rows]; exact hr
  refine ⟨g.adj_matrix[r], List.getElem?_eq_getElem hlt, ?_⟩
  exact h.row_length _ (List.getElem_mem hlt)

omit [DecidableEq E] [Inhabited V] [Inhabited E] in
theorem has_vertex_false_iff (g : Graph V E) (v : V) :
    has_vertex g v = false ↔ map_find g.vertex_index v = none := by
  unfold has_vertex
  cases map_find g.vertex_index v <;> simp

omit [Inhabited V] [DecidableEq E] in
theorem WellFormed.add_vertex_ok {g : Graph V E} (h : WellFormed g) {v : V}
    (hv : has_vertex g v = false) :
    ∃ g2, add_vertex g v = some g2 ∧ WellFormed g2 := by
  have hnone := (has_vertex_false_iff g v).1 hv
  refine ⟨_, add_vertex_eq g v g.index_vertex.length h.count_eq h.rows, ?_⟩
  constructor
  · simp [h.count_eq]
  · show (List.map Prod.fst (map_assign g.vertex_index v g.v_count)).Nodup
    rw [assign_absent _ _ _ hnone, List.map_append, List.nodup_append]
    refine ⟨h.keys_nodup, by simp, ?_⟩
    intro a ha hb
    simp only [List.map_cons, List.map_nil, List.mem_singleton] at hb
    subst hb
    exact (map_find_eq_none_iff _ _).1 hnone ha
  · intro w x
    show map_find (map_assign g.vertex_index v g.v_count) w = some x ↔
      ∃ i : Nat, x = (i : Int) ∧ (g.index_vertex ++ [v])[i]? = some w
    rw [map_find_assign]
    by_cases hw : v = w
    · subst hw
      rw [if_pos rfl, h.count_eq]
      constructor
      · intro hx
        refine ⟨g.index_vertex.length, (Option.some.inj hx).symm, ?_⟩
        rw [List.getElem?_append_right (le_refl _)]
        simp
      · rintro ⟨i, hi, hs⟩
        by_cases hlt : i < g.index_vertex.length
        · rw [List.getElem?_append_left hlt] at hs
          have := h.find_of_seq hs
          rw [hnone] at this
          exact absurd this (by simp)
        · have hlen := (List.getElem?_eq_some_iff.1 hs).1
          simp only [List.length_append, List.length_singleton] at hlen
          have : i = g.index_vertex.length := by omega
          rw [hi, this]
    · rw [if_neg hw, h.find_iff]
      constructor
      · rintro ⟨i, hi, hs⟩
        refine ⟨i, hi, ?_⟩
        rw [List.getElem?_append_left (List.getElem?_eq_some_iff.1 hs).1]
        exact hs
      · rintro ⟨i, hi, hs⟩
        refine ⟨i, hi, ?_⟩
        by_cases hlt : i < g.index_vertex.length
        · rw [List.getElem?_append_left hlt] at hs
          exact hs
        · rw [List.getElem?_append_right (not_lt.1 hlt)] at hs
          have hlen := (List.getElem?_eq_some_iff.1 hs).1
          simp only [List.length_singleton] at hlen
          have h0 : i - g.index_vertex.length = 0 := by omega
          rw [h0] at hs
          simp at hs
          exact absurd hs hw
  · simp [h.rows]
  · intro row hrow
    simp only [List.mem_append, List.mem_map, List.mem_singleton, List.length_append] at hrow ⊢
    rcases hrow with ⟨row0, hmem, rfl⟩ | rfl
    · have := h.row_length row0 hmem
      simp
      omega
    · simp

end WellFormedLemmas
end AdjMatrixGraph

/-! ## Cells and edges -/

namespace AdjMatrixGraph
section CellLemmas
variable {α : Type}

theorem mat_set_ok {adj : List (List α)} {n r c : Nat} (hlen : adj.length = n)
    (hrow : ∀ row ∈ adj, n ≤ row.length) (hr : r < n) (hc : c < n) (w : α) :
    ∃ row, adj[r]? = some row ∧ c < row.length ∧
      mat_set adj (r : Int) (c : Int) w = some (adj.set r (row.set c w)) ∧
      (adj.set r (row.set c w)).length = n ∧
      (∀ row2 ∈ adj.set r (row.set c w), n ≤ row2.length) ∧
      (∀ r2 c2 : Nat, mat_at (adj.set r (row.set c w)) (r2 : Int) (c2 : Int) =
        if r2 = r ∧ c2 = c then some w else mat_at adj (r2 : Int) (c2 : Int)) := by
  have hlt : r < adj.length := by omega
  have hget : adj[r]? = some adj[r] := List.getElem?_eq_getElem hlt
  have hclt : c < adj[r].length := lt_of_lt_of_le hc (hrow _ (List.getElem_mem hlt))
  refine ⟨adj[r], hget, hclt, mat_set_cast adj r c w _ hget hclt, by simp [hlen], ?_, ?_⟩
  · intro row2 hmem
    rcases List.mem_or_eq_of_mem_set hmem with h | h
    · exact hrow _ h
    · rw [h, List.length_set]
      exact hrow _ (List.getElem_mem hlt)
  · intro r2 c2
    rw [mat_at_cast, mat_at_cast, List.getElem?_set]
    by_cases h1 : r = r2
    · subst h1
      simp only [if_pos rfl, hlt, if_true, Option.some_bind, true_and, hget]
      rw [List.getElem?_set]
      by_cases h2 : c = c2
      · subst h2
        simp [hclt]
      · simp [h2, Ne.symm h2]
    · have h3 : ¬ (r2 = r ∧ c2 = c) := fun h => h1 h.1.symm
      simp [h1, h3]

end CellLemmas

section EdgeLemmas
variable {V E : Type} [DecidableEq V] [DecidableEq E] [Inhabited V] [Inhabited E]

omit [DecidableEq E] [Inhabited V] [Inhabited E] in
theorem has_vertex_of_find {g : Graph V E} {v : V} {x : Int}
    (h : map_find g.vertex_index v = some x) : has_vertex g v = true := by
  simp [has_vertex, h]

omit [Inhabited V] in
theorem has_edge_present (g : Graph V E) {v1 v2 : V} {r c : Int}
    (hr : map_find g.vertex_index v1 = some r) (hc : map_find g.vertex_index v2 = some c) :
    has_edge g v1 v2 =
      (mat_at g.adj_matrix r c).map (fun x => (decide (x ≠ default), g)) := by
  simp [has_edge, map_index_present _ _ _ hr, map_index_present _ _ _ hc]

omit [DecidableEq E] [Inhabited V] in
theorem get_edge_present (g : Graph V E) {v1 v2 : V} {r c : Int}
    (hr : map_find g.vertex_index v1 = some r) (hc : map_find g.vertex_index v2 = some c) :
    get_edge g v1 v2 = (mat_at g.adj_matrix r c).map (fun x => (x, g)) := by
  simp [get_edge, has_vertex_of_find hr, has_vertex_of_find hc,
    map_index_present _ _ _ hr, map_index_present _ _ _ hc]

omit [DecidableEq E] [Inhabited V] in
theorem get_edge_absent (g : Graph V E) {v1 v2 : V}
    (h : has_vertex g v1 = false ∨ has_vertex g v2 = false) :
    get_edge g v1 v2 = some (default, g) := by
  rcases h with h | h <;> simp [get_edge, h]

omit [DecidableEq E] [Inhabited V] [Inhabited E] in
theorem add_edge_absent (D : Bool) (g : Graph V E) {v1 v2 : V} (w : E)
    (h : has_vertex g v1 = false ∨ has_vertex g v2 = false) :
    add_edge D g v1 v2 w = some g := by
  cases D <;> rcases h with h | h <;>
    simp [add_edge, add_edge_directed, add_edge_undirected, h]

omit [DecidableEq E] [Inhabited V] [Inhabited E] in
theorem add_edge_directed_present (g : Graph V E) {v1 v2 : V} {r c : Int} (w : E)
    (hr : map_find g.vertex_index v1 = some r) (hc : map_find g.vertex_index v2 = some c) :
    add_edge_directed g v1 v2 w =
      (mat_set g.adj_matrix r c w).map (fun adj =>
        { g with adj_matrix := adj, e_count := g.e_count + 1 }) := by
  simp [add_edge_directed, has_vertex_of_find hr, has_vertex_of_find hc,
    map_index_present _ _ _ hr, map_index_present _ _ _ hc]

omit [DecidableEq E] [Inhabited V] [Inhabited E] in
theorem add_edge_undirected_present (g : Graph V E) {v1 v2 : V} {r c : Int} (w : E)
    (hr : map_find g.vertex_index v1 = some r) (hc : map_find g.vertex_index v2 = some c) :
    add_edge_undirected g v1 v2 w =
      (mat_set g.adj_matrix r c w).bind (fun adj1 =>
        (mat_set adj1 c r w).map (fun adj2 =>
          { g with adj_matrix := adj2, e_count := g.e_count + 1 })) := by
  simp [add_edge_undirected, has_vertex_of_find hr, has_vertex_of_find hc,
    map_index_present _ _ _ hr, map_index_present _ _ _ hc]

omit [Inhabited V] in
theorem remove_edge_directed_present (g : Graph V E) {v1 v2 : V} {r c : Int}
    (hr : map_find g.vertex_index v1 = some r) (hc : map_find g.vertex_index v2 = some c) :
    remove_edge_directed g v1 v2 =
      (mat_at g.adj_matrix r c).bind (fun x =>
        if x ≠ default then
          (mat_set g.adj_matrix r c default).map (fun adj =>
            (x, { g with adj_matrix := adj, e_count := g.e_count - 1 }))
        else some (default, g)) := by
  rw [remove_edge_directed, has_edge_present g hr hc]
  cases hx : mat_at g.adj_matrix r c with
  | none => simp
  | some x =>
    by_cases hd : x = default
    · simp [hd]
    · simp [hd, map_index_present _ _ _ hr, map_index_present _ _ _ hc, hx]

omit [Inhabited V] in
theorem remove_edge_undirected_present (g : Graph V E) {v1 v2 : V} {r c : Int}
    (hr : map_find g.vertex_index v1 = some r) (hc : map_find g.vertex_index v2 = some c) :
    remove_edge_undirected g v1 v2 =
      (mat_at g.adj_matrix r c).bind (fun x =>
        if x ≠ default then
          (mat_set g.adj_matrix r c default).bind (fun adj1 =>
            (mat_set adj1 c r default).map (fun adj2 =>
              (x, { g with adj_matrix := adj2, e_count := g.e_count - 1 })))
        else some (default, g)) := by
  rw [remove_edge_undirected, has_edge_present g hr hc]
  cases hx : mat_at g.adj_matrix r c with
  | none => simp
  | some x =>
    by_cases hd : x = default
    · simp [hd]
    · simp [hd, map_index_present _ _ _ hr, map_index_present _ _ _ hc, hx]

end EdgeLemmas
end AdjMatrixGraph

/-! ## Removing a vertex -/

namespace AdjMatrixGraph
section RemoveVertexLemmas
variable {V E : Type} [DecidableEq V] [DecidableEq E] [Inhabited V] [Inhabited E]

omit [Inhabited V] in
theorem renumber_loop (seq : List V)
    (hinj : ∀ (i j : Nat) (v : V), seq[i]? = some v → seq[j]? = some v → i = j)
    (cnt i : Nat) (m : List (V × Int)) (hbound : i + cnt ≤ seq.length)
    (hpres : ∀ v ∈ seq, (map_find m v).isSome = true) :
    ∃ m2, for_steps (renumber_step seq) cnt (i : Int) m = some m2 ∧
      m2.map Prod.fst = m.map Prod.fst ∧
      ∀ k, map_find m2 k =
        if k ∈ (seq.drop i).take cnt then (map_find m k).map (fun x => x - 1)
        else map_find m k := by
  induction cnt generalizing i m with
  | zero => exact ⟨m, by simp [for_steps], rfl, by simp⟩
  | succ cnt ih =>
    have hi : i < seq.length := by omega
    have hget : seq[i]? = some seq[i] := List.getElem?_eq_getElem hi
    obtain ⟨x0, hx0⟩ := Option.isSome_iff_exists.1 (hpres _ (List.getElem_mem hi))
    have hstep : renumber_step seq (i : Int) m = some (map_assign m seq[i] (x0 - 1)) := by
      simp [renumber_step, vec_at_cast, hget, map_index_present _ _ _ hx0]
    have hpres1 : ∀ v ∈ seq, (map_find (map_assign m seq[i] (x0 - 1)) v).isSome = true := by
      intro v hv
      rw [map_find_assign]
      by_cases h : seq[i] = v
      · simp [h]
      · simp [h, hpres v hv]
    obtain ⟨m2, hm2, hkeys, hfind⟩ := ih (i + 1) (map_assign m seq[i] (x0 - 1)) (by omega) hpres1
    refine ⟨m2, ?_, ?_, ?_⟩
    · simp only [for_steps, hstep, Option.some_bind]
      rw [← hm2]
      push_cast
      rfl
    · rw [hkeys, keys_assign_present _ _ _ _ hx0]
    · intro k
      rw [hfind k, map_find_assign, List.drop_eq_getElem_cons hi, List.take_succ_cons]
      by_cases hk : seq[i] = k
      · subst hk
        have hnot : seq[i] ∉ (seq.drop (i + 1)).take cnt := by
          intro hmem
          obtain ⟨j, hj⟩ := List.mem_iff_getElem?.1 (List.mem_of_mem_take hmem)
          rw [List.getElem?_drop] at hj
          have := hinj _ _ _ hget hj
          omega
        simp [hnot, hx0]
      · simp [hk, Ne.symm hk]

theorem column_loop_directed_some (r : Nat) (rows : List (List E)) (e : Int)
    (h : ∀ row ∈ rows, r < row.length) :
    ∃ e2, rows.foldlM (column_step_directed (r : Int)) e = some e2 := by
  induction rows generalizing e with
  | nil => exact ⟨e, rfl⟩
  | cons row rows ih =>
    have hr : r < row.length := h row (List.mem_cons_self _ _)
    have hstep : ∃ e1, column_step_directed (r : Int) e row = some e1 := by
      simp [column_step_directed, vec_at_cast, vec_erase_cast _ _ hr, List.getElem?_eq_getElem hr]
    obtain ⟨e1, he1⟩ := hstep
    obtain ⟨e2, he2⟩ := ih e1 (fun row2 h2 => h row2 (List.mem_cons_of_mem _ h2))
    exact ⟨e2, by simp [List.foldlM_cons, he1, he2]⟩

omit [DecidableEq E] [Inhabited E] in
theorem column_loop_undirected_some (r : Nat) (rows : List (List E))
    (h : ∀ row ∈ rows, r < row.length) :
    rows.foldlM (fun _ row => column_step_undirected (r : Int) row) () = some () := by
  induction rows with
  | nil => rfl
  | cons row rows ih =>
    have hr : r < row.length := h row (List.mem_cons_self _ _)
    have hstep : column_step_undirected (r : Int) row = some () := by
      simp [column_step_undirected, vec_erase_cast _ _ hr]
    simp [List.foldlM_cons, hstep, ih (fun row2 h2 => h row2 (List.mem_cons_of_mem _ h2))]

omit [DecidableEq E] [Inhabited V] [Inhabited E] in
theorem WellFormed.erase_vertex {g : Graph V E} (h : WellFormed g) {v : V} {r : Nat}
    (hr : g.index_vertex[r]? = some v) (vi : List (V × Int)) (e2 : Int)
    (hkeys : vi.map Prod.fst = g.vertex_index.map Prod.fst)
    (hfind : ∀ k, map_find vi k =
      if k ∈ g.index_vertex.drop (r + 1) then (map_find g.vertex_index k).map (fun x => x - 1)
      else map_find g.vertex_index k) :
    WellFormed
      { v_count := g.v_count - 1
        e_count := e2
        vertex_index := map_erase vi v
        index_vertex := g.index_vertex.eraseIdx r
        adj_matrix := g.adj_matrix.eraseIdx r } := by
  have hrlt : r < g.index_vertex.length := (List.getElem?_eq_some_iff.1 hr).1
  have hdrop : ∀ w, w ∈ g.index_vertex.drop (r + 1) ↔
      ∃ j : Nat, g.index_vertex[r + 1 + j]? = some w := by
    intro w
    rw [List.mem_iff_getElem?]
    simp only [List.getElem?_drop]
  constructor
  · show g.v_count - 1 = ((g.index_vertex.eraseIdx r).length : Int)
    rw [List.length_eraseIdx_of_lt hrlt, h.count_eq]
    omega
  · show (List.map Prod.fst (map_erase vi v)).Nodup
    rw [keys_erase, hkeys]
    exact h.keys_nodup.filter _
  · intro w x
    show map_find (map_erase vi v) w = some x ↔
      ∃ i : Nat, x = (i : Int) ∧ (g.index_vertex.eraseIdx r)[i]? = some w
    rw [map_find_erase, hfind]
    by_cases hvw : v = w
    · subst hvw
      rw [if_pos rfl]
      constructor
      · intro hx
        exact absurd hx (by simp)
      · rintro ⟨i, _, hs⟩
        exfalso
        rw [List.getElem?_eraseIdx] at hs
        by_cases hlt : i < r
        · rw [if_pos hlt] at hs
          have := h.seq_injective hs hr
          omega
        · rw [if_neg hlt] at hs
          have := h.seq_injective hs hr
          omega
    · rw [if_neg hvw]
      by_cases hmem : w ∈ g.index_vertex.drop (r + 1)
      · rw [if_pos hmem]
        obtain ⟨j, hj⟩ := (hdrop w).1 hmem
        rw [h.find_of_seq hj]
        constructor
        · intro hx
          refine ⟨r + j, ?_, ?_⟩
          · have := Option.some.inj hx
            rw [← this]
            push_cast
            ring
          · rw [List.getElem?_eraseIdx, if_neg (by omega)]
            rw [← hj]
            congr 1
            omega
        · rintro ⟨i, hi, hs⟩
          rw [List.getElem?_eraseIdx] at hs
          by_cases hlt : i < r
          · rw [if_pos hlt] at hs
            have := h.seq_injective hs hj
            omega
          · rw [if_neg hlt] at hs
            have := h.seq_injective hs hj
            rw [hi]
            simp only [Option.map_some']
            congr 1
            omega
      · rw [if_neg hmem]
        constructor
        · intro hx
          obtain ⟨j, hj, hs⟩ := (h.find_iff w x).1 hx
          have hne : j ≠ r := by
            intro hjr
            rw [hjr, hr] at hs
            exact hvw (Option.some.inj hs)
          have hlt : j < r := by
            by_contra hge
            apply hmem
            refine (hdrop w).2 ⟨j - (r + 1), ?_⟩
            rw [← hs]
            congr 1
            omega
          exact ⟨j, hj, by rw [List.getElem?_eraseIdx, if_pos hlt]; exact hs⟩
        · rintro ⟨i, hi, hs⟩
          rw [List.getElem?_eraseIdx] at hs
          by_cases hlt : i < r
          · rw [if_pos hlt] at hs
            rw [hi]
            exact h.find_of_seq hs
          · rw [if_neg hlt] at hs
            exfalso
            apply hmem
            refine (hdrop w).2 ⟨i - r, ?_⟩
            rw [← hs]
            congr 1
            omega
  · show (g.adj_matrix.eraseIdx r).length = (g.index_vertex.eraseIdx r).length
    rw [List.length_eraseIdx_of_lt hrlt, List.length_eraseIdx_of_lt (by rw [h.rows]; exact hrlt),
      h.rows]
  · intro row hrow
    show (g.index_vertex.eraseIdx r).length ≤ row.length
    have := h.row_length row (List.mem_of_mem_eraseIdx hrow)
    have := List.length_eraseIdx_le g.index_vertex r
    omega

end RemoveVertexLemmas
end AdjMatrixGraph

namespace AdjMatrixGraph
section RemoveVertexMain
variable {V E : Type} [DecidableEq V] [DecidableEq E] [Inhabited V] [Inhabited E]

omit [DecidableEq E] [Inhabited V] [Inhabited E] in
theorem WellFormed.renumber {g : Graph V E} (h : WellFormed g) {r : Nat}
    (hr : r < g.index_vertex.length) :
    ∃ vi, for_range ((r : Int) + 1) g.v_count (renumber_step g.index_vertex) g.vertex_index =
        some vi ∧
      vi.map Prod.fst = g.vertex_index.map Prod.fst ∧
      ∀ k, map_find vi k =
        if k ∈ g.index_vertex.drop (r + 1) then (map_find g.vertex_index k).map (fun x => x - 1)
        else map_find g.vertex_index k := by
  have hpres : ∀ v ∈ g.index_vertex, (map_find g.vertex_index v).isSome = true := by
    intro v hv
    obtain ⟨i, hi⟩ := List.mem_iff_getElem?.1 hv
    rw [h.find_of_seq hi]
    rfl
  obtain ⟨vi, h1, h2, h3⟩ := renumber_loop g.index_vertex (fun i j v hi hj => h.seq_injective hi hj)
    (g.index_vertex.length - (r + 1)) (r + 1) g.vertex_index (by omega) hpres
  refine ⟨vi, ?_, h2, ?_⟩
  · unfold for_range
    rw [h.count_eq]
    have e1 : ((g.index_vertex.length : Int) - ((r : Int) + 1)).toNat =
        g.index_vertex.length - (r + 1) := by omega
    rw [e1, ← h1]
    push_cast
    rfl
  · intro k
    rw [h3 k, List.take_of_length_le (by simp)]

theorem WellFormed.remove_vertex_directed_ok {g : Graph V E} (h : WellFormed g) {v : V}
    {r : Nat} (hr : g.index_vertex[r]? = some v) :
    ∃ row vi e2, g.adj_matrix[r]? = some row ∧
      (g.adj_matrix.eraseIdx r).foldlM (column_step_directed (r : Int))
        (count_down_row row g.e_count) = some e2 ∧
      for_range ((r : Int) + 1) g.v_count (renumber_step g.index_vertex) g.vertex_index =
        some vi ∧
      remove_vertex_directed g v = some (default,
        { v_count := g.v_count - 1
          e_count := e2
          vertex_index := map_erase vi v
          index_vertex := g.index_vertex.eraseIdx r
          adj_matrix := g.adj_matrix.eraseIdx r }) ∧
      WellFormed
        { v_count := g.v_count - 1
          e_count := e2
          vertex_index := map_erase vi v
          index_vertex := g.index_vertex.eraseIdx r
          adj_matrix := g.adj_matrix.eraseIdx r } := by
  have hrlt : r < g.index_vertex.length := (List.getElem?_eq_some_iff.1 hr).1
  have hfind := h.find_of_seq hr
  obtain ⟨row, hrow, _⟩ := h.row_of_lt hrlt
  have hrows : r < g.adj_matrix.length := by rw [h.rows]; exact hrlt
  obtain ⟨vi, hvi, hkeys, hvfind⟩ := h.renumber hrlt
  have hcols : ∀ row2 ∈ g.adj_matrix.eraseIdx r, r < row2.length := by
    intro row2 hmem
    have := h.row_length row2 (List.mem_of_mem_eraseIdx hmem)
    omega
  obtain ⟨e2, he2⟩ := column_loop_directed_some r (g.adj_matrix.eraseIdx r)
    (count_down_row row g.e_count) hcols
  refine ⟨row, vi, e2, hrow, he2, hvi, ?_, h.erase_vertex hr vi e2 hkeys hvfind⟩
  simp [remove_vertex_directed, has_vertex_of_find hfind, map_index_present _ _ _ hfind,
    vec_at_cast, hrow, vec_erase_cast _ _ hrows, he2, hvi, vec_erase_cast _ _ hrlt]

theorem WellFormed.remove_vertex_undirected_ok {g : Graph V E} (h : WellFormed g) {v : V}
    {r : Nat} (hr : g.index_vertex[r]? = some v) :
    ∃ row vi, g.adj_matrix[r]? = some row ∧
      for_range ((r : Int) + 1) g.v_count (renumber_step g.index_vertex) g.vertex_index =
        some vi ∧
      remove_vertex_undirected g v = some (default,
        { v_count := g.v_count - 1
          e_count := count_down_row row g.e_count
          vertex_index := map_erase vi v
          index_vertex := g.index_vertex.eraseIdx r
          adj_matrix := g.adj_matrix.eraseIdx r }) ∧
      WellFormed
        { v_count := g.v_count - 1
          e_count := count_down_row row g.e_count
          vertex_index := map_erase vi v
          index_vertex := g.index_vertex.eraseIdx r
          adj_matrix := g.adj_matrix.eraseIdx r } := by
  have hrlt : r < g.index_vertex.length := (List.getElem?_eq_some_iff.1 hr).1
  have hfind := h.find_of_seq hr
  obtain ⟨row, hrow, _⟩ := h.row_of_lt hrlt
  have hrows : r < g.adj_matrix.length := by rw [h.rows]; exact hrlt
  obtain ⟨vi, hvi, hkeys, hvfind⟩ := h.renumber hrlt
  have hcols : ∀ row2 ∈ g.adj_matrix.eraseIdx r, r < row2.length := by
    intro row2 hmem
    have := h.row_length row2 (List.mem_of_mem_eraseIdx hmem)
    omega
  have hloop := column_loop_undirected_some r (g.adj_matrix.eraseIdx r) hcols
  refine ⟨row, vi, hrow, hvi, ?_, h.erase_vertex hr vi _ hkeys hvfind⟩
  simp [remove_vertex_undirected, has_vertex_of_find hfind, map_index_present _ _ _ hfind,
    vec_at_cast, hrow, vec_erase_cast _ _ hrows, hloop, hvi, vec_erase_cast _ _ hrlt]

theorem remove_vertex_absent (D : Bool) (g : Graph V E) {v : V} (h : has_vertex g v = false) :
    remove_vertex D g v = some (default, g) := by
  cases D <;> simp [remove_vertex, remove_vertex_directed, remove_vertex_undirected, h]

theorem WellFormed.remove_vertex_ok {g : Graph V E} (h : WellFormed g) (D : Bool) (v : V) :
    ∃ g2, remove_vertex D g v = some (default, g2) ∧ WellFormed g2 := by
  cases hv : has_vertex g v with
  | false => exact ⟨g, remove_vertex_absent D g hv, h⟩
  | true =>
    obtain ⟨r, _, _, hs⟩ := h.index_of_has_vertex hv
    cases D with
    | true =>
      obtain ⟨row, vi, e2, _, _, _, heq, hwf⟩ := h.remove_vertex_directed_ok hs
      exact ⟨_, by simpa [remove_vertex] using heq, hwf⟩
    | false =>
      obtain ⟨row, vi, _, _, heq, hwf⟩ := h.remove_vertex_undirected_ok hs
      exact ⟨_, by simpa [remove_vertex] using heq, hwf⟩

end RemoveVertexMain
end AdjMatrixGraph

/-! ## One call, and runs of calls -/

namespace AdjMatrixGraph
section StepLemmas
variable {V E : Type} [DecidableEq V] [DecidableEq E] [Inhabited V] [Inhabited E]

omit [DecidableEq E] [Inhabited V] [Inhabited E] in
theorem WellFormed.with_matrix {g : Graph V E} (h : WellFormed g) (adj : List (List E))
    (e : Int) (hlen : adj.length = g.index_vertex.length)
    (hrow : ∀ row ∈ adj, g.index_vertex.length ≤ row.length) :
    WellFormed { g with adj_matrix := adj, e_count := e } :=
  { count_eq := h.count_eq
    keys_nodup := h.keys_nodup
    find_iff := h.find_iff
    rows := hlen
    row_length := hrow }

omit [DecidableEq E] [Inhabited V] [Inhabited E] in
theorem WellFormed.cell {g : Graph V E} (h : WellFormed g) {r c : Nat}
    (hr : r < g.index_vertex.length) (hc : c < g.index_vertex.length) :
    ∃ x, mat_at g.adj_matrix (r : Int) (c : Int) = some x := by
  obtain ⟨row, hrow, hlen⟩ := h.row_of_lt hr
  have hclt : c < row.length := by omega
  exact ⟨row[c], by simp [mat_at_cast, hrow, List.getElem?_eq_getElem hclt]⟩

omit [DecidableEq E] [Inhabited V] [Inhabited E] in
theorem WellFormed.add_edge_directed_ok {g : Graph V E} (h : WellFormed g) {v1 v2 : V}
    {r c : Nat} (w : E) (hr : g.index_vertex[r]? = some v1) (hc : g.index_vertex[c]? = some v2) :
    ∃ adj, mat_set g.adj_matrix (r : Int) (c : Int) w = some adj ∧
      add_edge_directed g v1 v2 w =
        some { g with adj_matrix := adj, e_count := g.e_count + 1 } ∧
      WellFormed { g with adj_matrix := adj, e_count := g.e_count + 1 } := by
  have hrlt : r < g.index_vertex.length := (List.getElem?_eq_some_iff.1 hr).1
  have hclt : c < g.index_vertex.length := (List.getElem?_eq_some_iff.1 hc).1
  obtain ⟨row, _, _, hset, hlen, hrows, _⟩ := mat_set_ok h.rows h.row_length hrlt hclt w
  refine ⟨_, hset, ?_, h.with_matrix _ _ hlen hrows⟩
  rw [AdjMatrixGraph.add_edge_directed_present g w (h.find_of_seq hr) (h.find_of_seq hc), hset]
  rfl

omit [DecidableEq E] [Inhabited V] [Inhabited E] in
theorem WellFormed.add_edge_undirected_ok {g : Graph V E} (h : WellFormed g) {v1 v2 : V}
    {r c : Nat} (w : E) (hr : g.index_vertex[r]? = some v1) (hc : g.index_vertex[c]? = some v2) :
    ∃ adj1 adj2, mat_set g.adj_matrix (r : Int) (c : Int) w = some adj1 ∧
      mat_set adj1 (c : Int) (r : Int) w = some adj2 ∧
      add_edge_undirected g v1 v2 w =
        some { g with adj_matrix := adj2, e_count := g.e_count + 1 } ∧
      WellFormed { g with adj_matrix := adj2, e_count := g.e_count + 1 } := by
  have hrlt : r < g.index_vertex.length := (List.getElem?_eq_some_iff.1 hr).1
  have hclt : c < g.index_vertex.length := (List.getElem?_eq_some_iff.1 hc).1
  obtain ⟨row, _, _, hset, hlen, hrows, _⟩ := mat_set_ok h.rows h.row_length hrlt hclt w
  obtain ⟨row2, _, _, hset2, hlen2, hrows2, _⟩ := mat_set_ok hlen hrows hclt hrlt w
  refine ⟨_, _, hset, hset2, ?_, h.with_matrix _ _ hlen2 hrows2⟩
  rw [AdjMatrixGraph.add_edge_undirected_present g w (h.find_of_seq hr) (h.find_of_seq hc), hset]
  simp only [Option.some_bind, hset2]
  rfl

omit [DecidableEq E] [Inhabited V] [Inhabited E] in
theorem WellFormed.add_edge_ok {g : Graph V E} (h : WellFormed g) (D : Bool) (v1 v2 : V) (w : E) :
    ∃ g2, add_edge D g v1 v2 w = some g2 ∧ WellFormed g2 ∧
      (has_vertex g v1 = true → has_vertex g v2 = true → g2.e_count = g.e_count + 1) := by
  cases h1 : has_vertex g v1 with
  | false => exact ⟨g, add_edge_absent D g w (Or.inl h1), h, by simp⟩
  | true =>
    cases h2 : has_vertex g v2 with
    | false => exact ⟨g, add_edge_absent D g w (Or.inr h2), h, by simp⟩
    | true =>
      obtain ⟨r, _, _, hr⟩ := h.index_of_has_vertex h1
      obtain ⟨c, _, _, hc⟩ := h.index_of_has_vertex h2
      cases D with
      | true =>
        obtain ⟨adj, _, heq, hwf⟩ := h.add_edge_directed_ok w hr hc
        exact ⟨_, by simpa [add_edge] using heq, hwf, fun _ _ => rfl⟩
      | false =>
        obtain ⟨adj1, adj2, _, _, heq, hwf⟩ := h.add_edge_undirected_ok w hr hc
        exact ⟨_, by simpa [add_edge] using heq, hwf, fun _ _ => rfl⟩

omit [Inhabited V] in
theorem WellFormed.has_edge_ok {g : Graph V E} (h : WellFormed g) {v1 v2 : V}
    (h1 : has_vertex g v1 = true) (h2 : has_vertex g v2 = true) :
    ∃ b, has_edge g v1 v2 = some (b, g) := by
  obtain ⟨r, hrlt, hr, _⟩ := h.index_of_has_vertex h1
  obtain ⟨c, hclt, hc, _⟩ := h.index_of_has_vertex h2
  obtain ⟨x, hx⟩ := h.cell hrlt hclt
  exact ⟨decide (x ≠ default), by rw [AdjMatrixGraph.has_edge_present g hr hc, hx]; rfl⟩

omit [Inhabited V] in
theorem WellFormed.remove_edge_ok {g : Graph V E} (h : WellFormed g) (D : Bool) {v1 v2 : V}
    (h1 : has_vertex g v1 = true) (h2 : has_vertex g v2 = true) :
    ∃ x g2, remove_edge D g v1 v2 = some (x, g2) ∧ WellFormed g2 := by
  obtain ⟨r, hrlt, hr, _⟩ := h.index_of_has_vertex h1
  obtain ⟨c, hclt, hc, _⟩ := h.index_of_has_vertex h2
  obtain ⟨x, hx⟩ := h.cell hrlt hclt
  obtain ⟨row, _, _, hset, hlen, hrows, _⟩ :=
    mat_set_ok h.rows h.row_length hrlt hclt (default : E)
  obtain ⟨row2, _, _, hset2, hlen2, hrows2, _⟩ := mat_set_ok hlen hrows hclt hrlt (default : E)
  by_cases hd : x = default
  · refine ⟨default, g, ?_, h⟩
    cases D
    · simp [remove_edge, remove_edge_undirected_present g hr hc, hx, hd]
    · simp [remove_edge, remove_edge_directed_present g hr hc, hx, hd]
  · cases D
    · refine ⟨x, _, ?_, h.with_matrix _ (g.e_count - 1) hlen2 hrows2⟩
      simp only [remove_edge, remove_edge_undirected_present g hr hc, hx, hset]
      simp [hd, hset2]
    · refine ⟨x, _, ?_, h.with_matrix _ (g.e_count - 1) hlen hrows⟩
      simp only [remove_edge, remove_edge_directed_present g hr hc, hx, hset]
      simp [hd]

theorem WellFormed.step_careful {g : Graph V E} (h : WellFormed g) (D : Bool) {op : Op V E}
    (hop : careful_use g op = true) : ∃ g2, step D g op = some g2 ∧ WellFormed g2 := by
  cases op with
  | add_vertex v =>
    simp only [careful_use, Bool.not_eq_true'] at hop
    exact h.add_vertex_ok hop
  | add_edge v1 v2 w =>
    obtain ⟨g2, heq, hwf, _⟩ := h.add_edge_ok D v1 v2 w
    exact ⟨g2, heq, hwf⟩
  | remove_edge v1 v2 =>
    simp only [careful_use, Bool.and_eq_true] at hop
    obtain ⟨x, g2, heq, hwf⟩ := h.remove_edge_ok D hop.1 hop.2
    exact ⟨g2, by simp [step, heq], hwf⟩
  | remove_vertex v =>
    obtain ⟨g2, heq, hwf⟩ := h.remove_vertex_ok D v
    exact ⟨g2, by simp [step, heq], hwf⟩
  | has_edge v1 v2 =>
    simp only [careful_use, Bool.and_eq_true] at hop
    obtain ⟨b, heq⟩ := h.has_edge_ok hop.1 hop.2
    exact ⟨g, by simp [step, heq], h⟩

theorem run_cons_some {D : Bool} {allowed : Graph V E → Op V E → Bool} {g g3 : Graph V E}
    {op : Op V E} {ops : List (Op V E)} (h : run D allowed g (op :: ops) = some g3) :
    allowed g op = true ∧ ∃ g2, step D g op = some g2 ∧ run D allowed g2 ops = some g3 := by
  unfold run at h
  by_cases ha : allowed g op = true
  · rw [if_pos ha] at h
    cases hs : step D g op with
    | none => rw [hs] at h; exact absurd h (by simp)
    | some g2 => rw [hs] at h; exact ⟨ha, g2, rfl, h⟩
  · rw [if_neg ha] at h
    exact absurd h (by simp)

theorem run_careful_wf (D : Bool) (ops : List (Op V E)) {g g2 : Graph V E} (h : WellFormed g)
    (hrun : run D careful_use g ops = some g2) : WellFormed g2 := by
  induction ops generalizing g with
  | nil =>
    simp only [run, Option.some.injEq] at hrun
    exact hrun ▸ h
  | cons op ops ih =>
    obtain ⟨ha, g1, hs, hr⟩ := run_cons_some hrun
    obtain ⟨g1b, hs2, hwf⟩ := h.step_careful D ha
    rw [hs] at hs2
    exact ih (Option.some.inj hs2 ▸ hwf) hr

end StepLemmas
end AdjMatrixGraph

namespace AdjMatrixGraph
section BijectionLemmas
variable {V E : Type} [DecidableEq V] [DecidableEq E] [Inhabited V] [Inhabited E]

omit [DecidableEq E] [Inhabited V] [Inhabited E] in
theorem WellFormed.seq_nodup {g : Graph V E} (h : WellFormed g) : g.index_vertex.Nodup := by
  rw [List.nodup_iff_getElem?_ne_getElem?]
  intro i j hij hj heq
  have hj2 : g.index_vertex[j]? = some g.index_vertex[j] := List.getElem?_eq_getElem hj
  have := h.seq_injective (heq.trans hj2) hj2
  omega

omit [DecidableEq E] [Inhabited V] [Inhabited E] in
theorem WellFormed.mem_keys_iff {g : Graph V E} (h : WellFormed g) (v : V) :
    v ∈ g.vertex_index.map Prod.fst ↔ v ∈ g.index_vertex := by
  constructor
  · intro hv
    cases hf : map_find g.vertex_index v with
    | none => exact absurd hv ((map_find_eq_none_iff _ _).1 hf)
    | some x =>
      obtain ⟨i, _, hs⟩ := (h.find_iff v x).1 hf
      exact List.mem_iff_getElem?.2 ⟨i, hs⟩
  · intro hv
    obtain ⟨i, hi⟩ := List.mem_iff_getElem?.1 hv
    by_contra hnot
    have := (map_find_eq_none_iff _ _).2 hnot
    rw [h.find_of_seq hi] at this
    exact absurd this (by simp)

omit [DecidableEq E] [Inhabited V] [Inhabited E] in
theorem WellFormed.map_length {g : Graph V E} (h : WellFormed g) :
    g.vertex_index.length = g.index_vertex.length := by
  have hperm := (List.perm_ext_iff_of_nodup h.keys_nodup h.seq_nodup).2 h.mem_keys_iff
  simpa using hperm.length_eq

end BijectionLemmas
end AdjMatrixGraph

/-! ## Counting cells -/

namespace AdjMatrixGraph
section CountLemmas
variable {E : Type} [DecidableEq E] [Inhabited E]

theorem sum_set_add (l : List Nat) (i : Nat) (a : Nat) (h : i < l.length) :
    (l.set i a).sum + l[i] = l.sum + a := by
  induction l generalizing i with
  | nil => simp at h
  | cons x l ih =>
    cases i with
    | zero => simp; omega
    | succ i =>
      simp only [List.length_cons, Nat.add_lt_add_iff_right] at h
      have := ih i h
      simp only [List.set_cons_succ, List.sum_cons, List.getElem_cons_succ]
      omega

omit [DecidableEq E] [Inhabited E] in
theorem countP_set_add (p : E → Bool) (row : List E) (c : Nat) (w : E) (h : c < row.length) :
    (row.set c w).countP p + (if p row[c] then 1 else 0) =
      row.countP p + (if p w then 1 else 0) := by
  rw [List.countP_set p row c w h]
  have := List.boole_getElem_le_countP p row c h
  omega

omit [DecidableEq E] [Inhabited E] in
theorem mat_set_inv {adj adj2 : List (List E)} {r c : Nat} {w : E}
    (h : mat_set adj (r : Int) (c : Int) w = some adj2) :
    ∃ row, ∃ (_ : r < adj.length) (_ : c < row.length), adj[r]? = some row ∧
      adj2 = adj.set r (row.set c w) := by
  unfold mat_set at h
  rw [vec_at_cast] at h
  cases hrow : adj[r]? with
  | none => rw [hrow] at h; exact absurd h (by simp)
  | some row =>
    rw [hrow] at h
    have hr : r < adj.length := (List.getElem?_eq_some_iff.1 hrow).1
    by_cases hc : c < row.length
    · rw [Option.some_bind, vec_set_cast _ _ _ hc, Option.some_bind, vec_set_cast _ _ _ hr] at h
      exact ⟨row, hr, hc, rfl, (Option.some.inj h).symm⟩
    · simp [vec_set, hc] at h

omit [DecidableEq E] in
theorem cell_or_default_set (adj : List (List E)) (r c : Nat) (w : E) (row : List E)
    (hrow : adj[r]? = some row) (hc : c < row.length) (r2 c2 : Nat) :
    cell_or_default (adj.set r (row.set c w)) r2 c2 =
      if r2 = r ∧ c2 = c then w else cell_or_default adj r2 c2 := by
  have hr : r < adj.length := (List.getElem?_eq_some_iff.1 hrow).1
  unfold cell_or_default
  rw [mat_at_cast, mat_at_cast, List.getElem?_set]
  by_cases h1 : r = r2
  · subst h1
    simp only [if_pos rfl, hr, if_true, Option.some_bind, true_and, hrow]
    rw [List.getElem?_set]
    by_cases h2 : c = c2
    · subst h2
      simp [hc]
    · simp [h2, Ne.symm h2]
  · have h3 : ¬ (r2 = r ∧ c2 = c) := fun h => h1 h.1.symm
    simp [h1, h3]

omit [DecidableEq E] [Inhabited E] in
theorem sum_countP_set (p : E → Bool) (adj : List (List E)) (r c : Nat) (w : E)
    (row : List E) (hrow : adj[r]? = some row) (hc : c < row.length) :
    ((adj.set r (row.set c w)).map (fun row => row.countP p)).sum +
        (if p row[c] then 1 else 0) =
      (adj.map (fun row => row.countP p)).sum + (if p w then 1 else 0) := by
  have hr : r < adj.length := (List.getElem?_eq_some_iff.1 hrow).1
  have hrow2 : adj[r] = row := by
    rw [List.getElem?_eq_getElem hr] at hrow
    exact Option.some.inj hrow
  have h1 := sum_set_add (adj.map (fun row => row.countP p)) r
    ((row.set c w).countP p) (by simpa using hr)
  have h2 := countP_set_add p row c w hc
  rw [List.map_set]
  simp only [List.getElem_map, hrow2] at h1
  omega

theorem count_cells_set (adj : List (List E)) (r c : Nat) (w : E) (row : List E)
    (hrow : adj[r]? = some row) (hc : c < row.length) :
    count_cells (adj.set r (row.set c w)) +
        (if cell_or_default adj r c = default then 0 else 1) =
      count_cells adj + (if w = default then 0 else 1) := by
  have hcell : cell_or_default adj r c = row[c] := by
    simp [cell_or_default, mat_at_cast, hrow, List.getElem?_eq_getElem hc]
  have h := sum_countP_set (fun x => decide (x ≠ default)) adj r c w row hrow hc
  have e1 : (if (fun x : E => decide (x ≠ default)) row[c] = true then 1 else 0) =
      (if row[c] = default then 0 else 1) := by
    by_cases hx : row[c] = default <;> simp [hx]
  have e2 : (if (fun x : E => decide (x ≠ default)) w = true then 1 else 0) =
      (if w = default then 0 else 1) := by
    by_cases hx : w = default <;> simp [hx]
  rw [e1, e2] at h
  rw [hcell]
  exact h

theorem mat_set_spec {adj adj2 : List (List E)} {r c : Nat} {w : E}
    (h : mat_set adj (r : Int) (c : Int) w = some adj2) :
    (∀ r2 c2 : Nat, cell_or_default adj2 r2 c2 =
        if r2 = r ∧ c2 = c then w else cell_or_default adj r2 c2) ∧
      count_cells adj2 + (if cell_or_default adj r c = default then 0 else 1) =
        count_cells adj + (if w = default then 0 else 1) := by
  obtain ⟨row, _, hc, hrow, rfl⟩ := mat_set_inv h
  exact ⟨cell_or_default_set adj r c w row hrow hc, count_cells_set adj r c w row hrow hc⟩

end CountLemmas
end AdjMatrixGraph

namespace AdjMatrixGraph
section CountedLemmas
variable {V E : Type} [DecidableEq V] [DecidableEq E] [Inhabited V] [Inhabited E]

omit [DecidableEq E] in
theorem cell_of_mat_at {adj : List (List E)} {r c : Nat} {x : E}
    (h : mat_at adj (r : Int) (c : Int) = some x) : cell_or_default adj r c = x := by
  simp [cell_or_default, h]

end CountedLemmas
end AdjMatrixGraph

/-! ## Adding a list of vertices -/

namespace AdjMatrixGraph
section AddVerticesLemmas
variable {V E : Type} [DecidableEq V] [DecidableEq E] [Inhabited V] [Inhabited E]

omit [DecidableEq E] [Inhabited V] [Inhabited E] in
theorem has_vertex_iff_mem_keys (g : Graph V E) (v : V) :
    has_vertex g v = true ↔ v ∈ g.vertex_index.map Prod.fst := by
  rw [← not_iff_not, Bool.not_eq_true, has_vertex_false_iff, map_find_eq_none_iff]

omit [DecidableEq E] [Inhabited V] [Inhabited E] in
theorem WellFormed.has_vertex_iff {g : Graph V E} (h : WellFormed g) (v : V) :
    has_vertex g v = true ↔ v ∈ g.index_vertex := by
  rw [has_vertex_iff_mem_keys, h.mem_keys_iff]

omit [DecidableEq E] [Inhabited V] in
theorem WellFormed.add_vertex_seq {g : Graph V E} (h : WellFormed g) {v : V}
    (hv : has_vertex g v = false) :
    ∃ g2, add_vertex g v = some g2 ∧ WellFormed g2 ∧
      g2.index_vertex = g.index_vertex ++ [v] := by
  obtain ⟨g2, heq, hwf⟩ := h.add_vertex_ok hv
  have hexp := add_vertex_eq g v g.index_vertex.length h.count_eq h.rows
  rw [hexp] at heq
  obtain rfl := Option.some.inj heq
  exact ⟨_, hexp, hwf, rfl⟩

omit [DecidableEq E] [Inhabited V] in
theorem WellFormed.add_vertices_seq {g : Graph V E} (h : WellFormed g) (vs : List V)
    (hnd : vs.Nodup) (hfresh : ∀ v ∈ vs, has_vertex g v = false) :
    ∃ g2, add_vertices g vs = some g2 ∧ WellFormed g2 ∧
      g2.index_vertex = g.index_vertex ++ vs := by
  induction vs generalizing g with
  | nil => exact ⟨g, rfl, h, by simp⟩
  | cons v vs ih =>
    obtain ⟨g1, heq1, hwf1, hseq1⟩ := h.add_vertex_seq (hfresh v (List.mem_cons_self _ _))
    have hnd2 := List.nodup_cons.1 hnd
    have hfresh1 : ∀ w ∈ vs, has_vertex g1 w = false := by
      intro w hw
      rw [← Bool.not_eq_true, hwf1.has_vertex_iff, hseq1, List.mem_append, not_or]
      constructor
      · rw [← h.has_vertex_iff, Bool.not_eq_true]
        exact hfresh w (List.mem_cons_of_mem _ hw)
      · intro hmem
        rw [List.mem_singleton] at hmem
        exact hnd2.1 (hmem ▸ hw)
    obtain ⟨g2, heq2, hwf2, hseq2⟩ := ih hwf1 hnd2.2 hfresh1
    refine ⟨g2, ?_, hwf2, ?_⟩
    · simp [add_vertices, heq1, heq2]
    · rw [hseq2, hseq1]
      simp

end AddVerticesLemmas
end AdjMatrixGraph

/-! ## Reading and writing cells through the public members -/

namespace AdjMatrixGraph
section CellReadWrite
variable {V E : Type} [DecidableEq V] [DecidableEq E] [Inhabited V] [Inhabited E]

omit [DecidableEq E] [Inhabited V] in
theorem WellFormed.cell_some {g : Graph V E} (h : WellFormed g) {r c : Nat}
    (hr : r < g.index_vertex.length) (hc : c < g.index_vertex.length) :
    mat_at g.adj_matrix (r : Int) (c : Int) = some (cell_or_default g.adj_matrix r c) := by
  obtain ⟨x, hx⟩ := h.cell hr hc
  rw [cell_of_mat_at hx, hx]

omit [DecidableEq E] [Inhabited V] in
theorem WellFormed.get_edge_cell {g : Graph V E} (h : WellFormed g) {v1 v2 : V} {r c : Nat}
    (hr : g.index_vertex[r]? = some v1) (hc : g.index_vertex[c]? = some v2) :
    get_edge g v1 v2 = some (cell_or_default g.adj_matrix r c, g) := by
  have hrlt : r < g.index_vertex.length := (List.getElem?_eq_some_iff.1 hr).1
  have hclt : c < g.index_vertex.length := (List.getElem?_eq_some_iff.1 hc).1
  rw [get_edge_present g (h.find_of_seq hr) (h.find_of_seq hc), h.cell_some hrlt hclt]
  rfl

omit [Inhabited V] in
theorem WellFormed.has_edge_cell {g : Graph V E} (h : WellFormed g) {v1 v2 : V} {r c : Nat}
    (hr : g.index_vertex[r]? = some v1) (hc : g.index_vertex[c]? = some v2) :
    has_edge g v1 v2 = some (decide (cell_or_default g.adj_matrix r c ≠ default), g) := by
  have hrlt : r < g.index_vertex.length := (List.getElem?_eq_some_iff.1 hr).1
  have hclt : c < g.index_vertex.length := (List.getElem?_eq_some_iff.1 hc).1
  rw [AdjMatrixGraph.has_edge_present g (h.find_of_seq hr) (h.find_of_seq hc),
    h.cell_some hrlt hclt]
  rfl

omit [DecidableEq E] [Inhabited V] in
theorem WellFormed.edge_weight_cell {g : Graph V E} (h : WellFormed g) {v1 v2 : V} {r c : Nat}
    (hr : g.index_vertex[r]? = some v1) (hc : g.index_vertex[c]? = some v2) :
    edge_weight g v1 v2 = some (cell_or_default g.adj_matrix r c) := by
  rw [edge_weight, h.get_edge_cell hr hc]
  rfl

omit [Inhabited V] in
theorem WellFormed.edge_present_cell {g : Graph V E} (h : WellFormed g) {v1 v2 : V} {r c : Nat}
    (hr : g.index_vertex[r]? = some v1) (hc : g.index_vertex[c]? = some v2) :
    edge_present g v1 v2 = decide (cell_or_default g.adj_matrix r c ≠ default) := by
  rw [edge_present, h.edge_weight_cell hr hc]

omit [Inhabited V] in
theorem WellFormed.add_edge_cells {g : Graph V E} (h : WellFormed g) (D : Bool) {v1 v2 : V}
    {r c : Nat} (w : E) (hr : g.index_vertex[r]? = some v1)
    (hc : g.index_vertex[c]? = some v2) :
    ∃ g2, add_edge D g v1 v2 w = some g2 ∧ WellFormed g2 ∧
      g2.index_vertex = g.index_vertex ∧ g2.vertex_index = g.vertex_index ∧
      g2.v_count = g.v_count ∧ g2.e_count = g.e_count + 1 ∧
      ∀ a b : Nat, cell_or_default g2.adj_matrix a b =
        if (a = r ∧ b = c) ∨ (D = false ∧ a = c ∧ b = r) then w
        else cell_or_default g.adj_matrix a b := by
  cases D with
  | true =>
    obtain ⟨adj, hset, heq, hwf⟩ := h.add_edge_directed_ok w hr hc
    obtain ⟨hcells, _⟩ := mat_set_spec hset
    refine ⟨_, by simpa [add_edge] using heq, hwf, rfl, rfl, rfl, rfl, ?_⟩
    intro a b
    show cell_or_default adj a b = _
    rw [hcells]
    simp
  | false =>
    obtain ⟨adj1, adj2, hset1, hset2, heq, hwf⟩ := h.add_edge_undirected_ok w hr hc
    obtain ⟨hcells1, _⟩ := mat_set_spec hset1
    obtain ⟨hcells2, _⟩ := mat_set_spec hset2
    refine ⟨_, by simpa [add_edge] using heq, hwf, rfl, rfl, rfl, rfl, ?_⟩
    intro a b
    show cell_or_default adj2 a b = _
    rw [hcells2, hcells1]
    by_cases e1 : a = c ∧ b = r
    · simp [e1]
    · by_cases e2 : a = r ∧ b = c
      · simp [e2]
      · simp [e1, e2]

omit [Inhabited V] in
theorem WellFormed.remove_edge_cells {g : Graph V E} (h : WellFormed g) (D : Bool) {v1 v2 : V}
    {r c : Nat} (hr : g.index_vertex[r]? = some v1) (hc : g.index_vertex[c]? = some v2) :
    ∃ g2, remove_edge D g v1 v2 = some (cell_or_default g.adj_matrix r c, g2) ∧
      WellFormed g2 ∧
      g2.index_vertex = g.index_vertex ∧ g2.vertex_index = g.vertex_index ∧
      g2.v_count = g.v_count ∧
      g2.e_count =
        (if cell_or_default g.adj_matrix r c = default then g.e_count else g.e_count - 1) ∧
      ∀ a b : Nat, cell_or_default g2.adj_matrix a b =
        if cell_or_default g.adj_matrix r c ≠ default ∧
            ((a = r ∧ b = c) ∨ (D = false ∧ a = c ∧ b = r)) then default
        else cell_or_default g.adj_matrix a b := by
  have hrlt : r < g.index_vertex.length := (List.getElem?_eq_some_iff.1 hr).1
  have hclt : c < g.index_vertex.length := (List.getElem?_eq_some_iff.1 hc).1
  have hrf := h.find_of_seq hr
  have hcf := h.find_of_seq hc
  have hx := h.cell_some hrlt hclt
  obtain ⟨row, _, _, hset, hlen, hrows, _⟩ :=
    mat_set_ok h.rows h.row_length hrlt hclt (default : E)
  obtain ⟨row2, _, _, hset2, hlen2, hrows2, _⟩ := mat_set_ok hlen hrows hclt hrlt (default : E)
  obtain ⟨hcells1, _⟩ := mat_set_spec hset
  obtain ⟨hcells2, _⟩ := mat_set_spec hset2
  by_cases hd : cell_or_default g.adj_matrix r c = default
  · refine ⟨g, ?_, h, rfl, rfl, rfl, by simp [hd], by simp [hd]⟩
    cases D
    · simp [remove_edge, remove_edge_undirected_present g hrf hcf, hx, hd]
    · simp [remove_edge, remove_edge_directed_present g hrf hcf, hx, hd]
  · cases D with
    | true =>
      refine ⟨_, ?_, h.with_matrix _ (g.e_count - 1) hlen hrows, rfl, rfl, rfl, by simp [hd], ?_⟩
      · simp only [remove_edge, remove_edge_directed_present g hrf hcf, hx, hset]
        simp [hd]
      · intro a b
        show cell_or_default (g.adj_matrix.set r (row.set c default)) a b = _
        rw [hcells1]
        simp [hd]
    | false =>
      refine ⟨_, ?_, h.with_matrix _ (g.e_count - 1) hlen2 hrows2, rfl, rfl, rfl, by simp [hd],
        ?_⟩
      · simp only [remove_edge, remove_edge_undirected_present g hrf hcf, hx, hset]
        simp [hd, hset2]
      · intro a b
        show cell_or_default ((g.adj_matrix.set r (row.set c default)).set c
          (row2.set r default)) a b = _
        rw [hcells2, hcells1]
        by_cases e1 : a = c ∧ b = r
        · simp [e1, hd]
        · by_cases e2 : a = r ∧ b = c
          · simp [e2, hd]
          · simp [e1, e2]

theorem run_mono {D : Bool} {a b : Graph V E → Op V E → Bool}
    (hab : ∀ g op, a g op = true → b g op = true) (ops : List (Op V E)) {g g2 : Graph V E}
    (hrun : run D a g ops = some g2) : run D b g ops = some g2 := by
  induction ops generalizing g with
  | nil => exact hrun
  | cons op ops ih =>
    obtain ⟨ha, g1, hs, hr⟩ := run_cons_some hrun
    simp [run, hab g op ha, hs, ih hr]

omit [DecidableEq E] [Inhabited V] [Inhabited E] in
theorem careful_of_present (g : Graph V E) (op : Op V E) (h : present_use g op = true) :
    careful_use g op = true := by
  cases op <;> simp_all [present_use, careful_use]

omit [DecidableEq E] [Inhabited V] [Inhabited E] in
theorem careful_of_build (g : Graph V E) (op : Op V E) (h : build_use g op = true) :
    careful_use g op = true := by
  cases op <;> simp_all [build_use, careful_use]

omit [DecidableEq E] [Inhabited V] [Inhabited E] in
theorem careful_of_edge_use (g : Graph V E) (op : Op V E) (h : edge_use g op = true) :
    careful_use g op = true := by
  cases op <;> simp_all [edge_use, careful_use]

theorem run_present_wf (D : Bool) (ops : List (Op V E)) {g : Graph V E}
    (hrun : run D present_use empty_graph ops = some g) : WellFormed g :=
  run_careful_wf D ops wf_empty_graph (run_mono careful_of_present ops hrun)

end CellReadWrite
end AdjMatrixGraph

/-! ## Neighbours -/

namespace AdjMatrixGraph
section NeighborLemmas
variable {V E : Type} [DecidableEq V] [DecidableEq E] [Inhabited V] [Inhabited E]

omit [Inhabited V] in
theorem WellFormed.neighbor_loop {g : Graph V E} (h : WellFormed g) {v : V} {r : Nat}
    (hr : g.index_vertex[r]? = some v) (cnt i : Nat) (acc : List V)
    (hb : i + cnt ≤ g.index_vertex.length) :
    for_steps (neighbor_step g (r : Int)) cnt (i : Int) acc =
      some (acc ++ ((g.index_vertex.drop i).take cnt).filter (fun u => edge_present g v u)) := by
  have hrlt : r < g.index_vertex.length := (List.getElem?_eq_some_iff.1 hr).1
  induction cnt generalizing i acc with
  | zero => simp [for_steps]
  | succ cnt ih =>
    have hi : i < g.index_vertex.length := by omega
    have hget : g.index_vertex[i]? = some g.index_vertex[i] := List.getElem?_eq_getElem hi
    have hp := h.edge_present_cell hr hget
    have hstep : neighbor_step g (r : Int) (i : Int) acc =
        some (if edge_present g v g.index_vertex[i] then acc ++ [g.index_vertex[i]] else acc) := by
      rw [neighbor_step, h.cell_some hrlt hi, hp]
      by_cases hd : cell_or_default g.adj_matrix r i = default
      · simp [hd]
      · simp [hd, vec_at_cast, hget]
    have hnext := ih (i + 1)
      (if edge_present g v g.index_vertex[i] then acc ++ [g.index_vertex[i]] else acc) (by omega)
    simp only [for_steps, hstep, Option.some_bind]
    have hcast : ((i : Int) + 1) = ((i + 1 : Nat) : Int) := by push_cast; rfl
    rw [hcast, hnext, List.drop_eq_getElem_cons hi, List.take_succ_cons, List.filter_cons]
    by_cases hpe : edge_present g v g.index_vertex[i] = true
    · simp [hpe]
    · simp [hpe]

omit [Inhabited V] in
theorem WellFormed.get_neighbors_eq {g : Graph V E} (h : WellFormed g) {v : V} {r : Nat}
    (hr : g.index_vertex[r]? = some v) :
    get_neighbors g v =
      some (g.index_vertex.filter (fun u => edge_present g v u), g) := by
  have hfind := h.find_of_seq hr
  have hloop := h.neighbor_loop hr g.index_vertex.length 0 [] (by omega)
  have hn : (g.v_count - 0).toNat = g.index_vertex.length := by
    rw [h.count_eq]
    omega
  simp only [get_neighbors, has_vertex_of_find hfind, if_true, map_index_present _ _ _ hfind,
    for_range, hn]
  simp only [Nat.cast_zero, List.drop_zero, List.take_length, List.nil_append] at hloop
  rw [hloop]
  rfl

omit [Inhabited V] in
theorem get_neighbors_absent (g : Graph V E) {v : V} (hv : has_vertex g v = false) :
    get_neighbors g v = some ([], g) := by
  simp [get_neighbors, hv]

end NeighborLemmas
end AdjMatrixGraph

/-! ## Bounds, and the renumbering of `remove_vertex` -/

namespace AdjMatrixGraph
section BoundsLemmas
variable {V E : Type} [DecidableEq V] [DecidableEq E] [Inhabited V] [Inhabited E]

omit [Inhabited V] in
theorem map_find_of_mem (m : List (V × Int)) (hnd : (m.map Prod.fst).Nodup) (p : V × Int)
    (hp : p ∈ m) : map_find m p.1 = some p.2 := by
  induction m with
  | nil => simp at hp
  | cons q rest ih =>
    obtain ⟨k2, y⟩ := q
    simp only [List.map_cons, List.nodup_cons] at hnd
    rcases List.mem_cons.1 hp with rfl | hmem
    · simp [map_find]
    · have hne : k2 ≠ p.1 := by
        intro e
        apply hnd.1
        rw [e]
        exact List.mem_map_of_mem Prod.fst hmem
      simp [map_find, hne, ih hnd.2 hmem]

omit [DecidableEq E] [Inhabited E] [Inhabited V] in
theorem WellFormed.entry_bounds {g : Graph V E} (h : WellFormed g) (p : V × Int)
    (hp : p ∈ g.vertex_index) : 0 ≤ p.2 ∧ p.2 < g.v_count := by
  have hf := map_find_of_mem _ h.keys_nodup p hp
  obtain ⟨i, hi, hs⟩ := (h.find_iff p.1 p.2).1 hf
  have hlt : i < g.index_vertex.length := (List.getElem?_eq_some_iff.1 hs).1
  rw [hi, h.count_eq]
  omega

omit [DecidableEq E] [Inhabited V] in
theorem WellFormed.get_edge_some {g : Graph V E} (h : WellFormed g) (v1 v2 : V) :
    ∃ x, get_edge g v1 v2 = some (x, g) := by
  cases h1 : has_vertex g v1 with
  | false => exact ⟨default, get_edge_absent g (Or.inl h1)⟩
  | true =>
    cases h2 : has_vertex g v2 with
    | false => exact ⟨default, get_edge_absent g (Or.inr h2)⟩
    | true =>
      obtain ⟨r, _, _, hr⟩ := h.index_of_has_vertex h1
      obtain ⟨c, _, _, hc⟩ := h.index_of_has_vertex h2
      exact ⟨_, h.get_edge_cell hr hc⟩

omit [Inhabited V] in
theorem WellFormed.get_neighbors_some {g : Graph V E} (h : WellFormed g) (v : V) :
    ∃ ns, get_neighbors g v = some (ns, g) := by
  cases hv : has_vertex g v with
  | false => exact ⟨[], get_neighbors_absent g hv⟩
  | true =>
    obtain ⟨r, _, _, hr⟩ := h.index_of_has_vertex hv
    exact ⟨_, h.get_neighbors_eq hr⟩

theorem WellFormed.remove_vertex_renumbers {g : Graph V E} (h : WellFormed g) (D : Bool)
    {v : V} {r : Nat} (hr : g.index_vertex[r]? = some v) :
    ∃ g2, remove_vertex D g v = some (default, g2) ∧
      ∀ (u : V) (x : Int), u ≠ v → map_find g.vertex_index u = some x →
        map_find g2.vertex_index u = some (if (r : Int) < x then x - 1 else x) := by
  have hrlt : r < g.index_vertex.length := (List.getElem?_eq_some_iff.1 hr).1
  obtain ⟨vi, hvi, _, hfind⟩ := h.renumber hrlt
  have key : ∀ (u : V) (x : Int), u ≠ v → map_find g.vertex_index u = some x →
      map_find (map_erase vi v) u = some (if (r : Int) < x then x - 1 else x) := by
    intro u x hne hx
    rw [map_find_erase, if_neg (fun e => hne e.symm), hfind, hx]
    obtain ⟨j, hj, hs⟩ := (h.find_iff u x).1 hx
    by_cases hmem : u ∈ g.index_vertex.drop (r + 1)
    · obtain ⟨k, hk⟩ := List.mem_iff_getElem?.1 hmem
      rw [List.getElem?_drop] at hk
      have := h.seq_injective hs hk
      have hlt : (r : Int) < x := by rw [hj]; omega
      simp [hmem, hlt]
    · have hle : ¬ (r : Int) < x := by
        intro hlt
        apply hmem
        refine List.mem_iff_getElem?.2 ⟨j - (r + 1), ?_⟩
        rw [List.getElem?_drop, ← hs]
        congr 1
        omega
      simp [hmem, hle]
  cases D with
  | true =>
    obtain ⟨row, vi2, e2, _, _, hvi2, heq, _⟩ := h.remove_vertex_directed_ok hr
    rw [hvi] at hvi2
    obtain rfl := Option.some.inj hvi2
    exact ⟨_, by simpa [remove_vertex] using heq, key⟩
  | false =>
    obtain ⟨row, vi2, _, hvi2, heq, _⟩ := h.remove_vertex_undirected_ok hr
    rw [hvi] at hvi2
    obtain rfl := Option.some.inj hvi2
    exact ⟨_, by simpa [remove_vertex] using heq, key⟩

end BoundsLemmas
end AdjMatrixGraph

/-! ## Edge accounting of `remove_vertex` -/

namespace AdjMatrixGraph
section AccountingLemmas
variable {V E : Type} [DecidableEq V] [DecidableEq E] [Inhabited V] [Inhabited E]

end AccountingLemmas
end AdjMatrixGraph

/-! ## The claims -/

namespace AdjMatrixGraph

/-- C1, the code at the scenario of the specification (directed graph,
vertices 1, 2, 3, edges `1 -> 2` of weight 5 and `2 -> 3` of weight 7): before
`remove_vertex(2)` there is no edge `1 -> 3`; `remove_vertex(2)` deletes the row
of vertex 2 but no column, so afterwards `has_edge(1, 3)` is `true` and
`get_edge(1, 3)` is 5. -/
theorem remove_vertex_keeps_column :
    run true build_use (empty_graph : Graph Int Int)
        [.add_vertex 1, .add_vertex 2, .add_vertex 3, .add_edge 1 2 5, .add_edge 2 3 7] =
        some path_graph ∧
      (has_edge path_graph 1 3).map Prod.fst = some false ∧
      edge_weight path_graph 1 3 = some 0 ∧
      remove_vertex true path_graph 2 = some (0, path_graph_cut) ∧
      (has_edge path_graph_cut 1 3).map Prod.fst = some true ∧
      edge_weight path_graph_cut 1 3 = some 5 := by
  decide

/-- C2, the code at the first `add_vertex`: the graph has one vertex and its
only row has three cells, so the matrix is not square; and `remove_vertex(2)`
on the path graph leaves rows of five and seven cells for two vertices. -/
theorem add_vertex_row_too_long :
    add_vertex (empty_graph : Graph Int Int) 1 = some one_vertex ∧
      num_vertices one_vertex = 1 ∧
      one_vertex.adj_matrix.map List.length = [3] ∧
      is_square one_vertex = false ∧
      (remove_vertex true path_graph 2).map (fun r => r.2.adj_matrix.map List.length) =
        some [5, 7] ∧
      (remove_vertex true path_graph 2).map (fun r => num_vertices r.2) = some 2 := by
  decide

/-- C3 as stated fails: after `add_vertex(1)` twice the graph counts two
vertices, the map has one key, and the map sends `index_vertex[0]` to 1; and
after `add_vertex(1)` and `has_edge(2, 3)` the graph counts one vertex and the
map has three keys. -/
theorem duplicate_add_vertex_breaks_bijection :
    run true any_use (empty_graph : Graph Int Int) [.add_vertex 1, .add_vertex 1] =
        some twice_added ∧
      num_vertices twice_added = 2 ∧
      twice_added.vertex_index.length = 1 ∧
      twice_added.index_vertex[0]? = some 1 ∧
      map_find twice_added.vertex_index 1 = some 1 ∧
      run true any_use (empty_graph : Graph Int Int) [.add_vertex 1, .has_edge 2 3] =
        some one_vertex_asked ∧
      num_vertices one_vertex_asked = 1 ∧
      one_vertex_asked.vertex_index.length = 3 := by
  decide

/-- C3, amended: in every state reached from the empty graph by `add_vertex`
with values that are not vertices at the time of the call, `add_edge` and
`remove_vertex` with any arguments, and `has_edge` and `remove_edge` between
two vertices, the map has one entry per key and `num_vertices()` entries, the
sequence has length `num_vertices()`, and the map sends `index_vertex[i]` to
`i` for every `i`. -/
theorem index_bijection_careful_use (D : Bool) (ops : List (Op V E)) (g : Graph V E)
    [DecidableEq V] [DecidableEq E] [Inhabited V] [Inhabited E]
    (hrun : run D careful_use empty_graph ops = some g) :
    (g.vertex_index.map Prod.fst).Nodup ∧
      (g.vertex_index.length : Int) = num_vertices g ∧
      (g.index_vertex.length : Int) = num_vertices g ∧
      ∀ (i : Nat) (v : V), g.index_vertex[i]? = some v →
        map_find g.vertex_index v = some (i : Int) := by
  have h := run_careful_wf D ops wf_empty_graph hrun
  refine ⟨h.keys_nodup, ?_, h.count_eq.symm, fun i v hs => h.find_of_seq hs⟩
  rw [h.map_length]
  exact h.count_eq.symm

/-- C3, amended, at a run that adds three vertices and an edge, asks for an
edge and removes the first vertex. -/
theorem index_bijection_careful_use_witness :
    run true careful_use (empty_graph : Graph Int Int)
        [.add_vertex 1, .add_vertex 2, .add_vertex 3, .add_edge 1 2 5, .has_edge 2 3,
          .remove_vertex 1] = some near_edge_cut ∧
      ((near_edge_cut.vertex_index.map Prod.fst).Nodup ∧
        (near_edge_cut.vertex_index.length : Int) = num_vertices near_edge_cut ∧
        (near_edge_cut.index_vertex.length : Int) = num_vertices near_edge_cut ∧
        ∀ (i : Nat) (v : Int), near_edge_cut.index_vertex[i]? = some v →
          map_find near_edge_cut.vertex_index v = some (i : Int)) :=
  ⟨by decide,
    index_bijection_careful_use true
      [.add_vertex 1, .add_vertex 2, .add_vertex 3, .add_edge 1 2 5, .has_edge 2 3,
        .remove_vertex 1] near_edge_cut (by decide)⟩

/-- C4, the code at a present vertex: after `add_vertex(2)`, in both modes,
`has_vertex(2)` holds and `remove_vertex(2)` returns `V()`, which is 0, and not
the removed value 2. -/
theorem remove_vertex_returns_default :
    add_vertex (empty_graph : Graph Int Int) 2 = some vertex_two ∧
      has_vertex vertex_two 2 = true ∧
      (remove_vertex true vertex_two 2).map Prod.fst = some 0 ∧
      (remove_vertex false vertex_two 2).map Prod.fst = some 0 := by
  decide

/-- C5, the code at two values that are not vertices: in the graph with the
single vertex 1 and the loop `1 -> 1` of weight 5, `has_vertex(2)` and
`has_vertex(3)` are false and `has_edge(2, 3)` returns `true`. -/
theorem has_edge_true_without_vertices :
    run true build_use (empty_graph : Graph Int Int) [.add_vertex 1, .add_edge 1 1 5] =
        some one_loop ∧
      has_vertex one_loop 2 = false ∧
      has_vertex one_loop 3 = false ∧
      (has_edge one_loop 2 3).map Prod.fst = some true := by
  decide

/-- C6, the code at a value that is not a vertex: in the graph with the single
vertex 1, `has_vertex(2)` is false before `has_edge(2, 3)` and true after it,
and the map has gained the entries `2 -> 0` and `3 -> 0`. -/
theorem has_edge_inserts_keys :
    has_vertex one_vertex 2 = false ∧
      has_edge one_vertex 2 3 = some (false, one_vertex_asked) ∧
      (has_edge one_vertex 2 3).map (fun r => has_vertex r.2 2) = some true := by
  decide

/-- C7, the code at two values that are not vertices: in the graph with the
single vertex 1 and the loop `1 -> 1` of weight 5 (built by `add_vertex` and
`add_edge` on a present vertex), `remove_edge(2, 3)` returns 5, clears the loop,
takes `num_edges()` from 1 to 0 and makes 2 and 3 keys of the map, in both
modes. -/
theorem remove_edge_without_vertices :
    run true build_use (empty_graph : Graph Int Int) [.add_vertex 1, .add_edge 1 1 5] =
        some one_loop ∧
      run false build_use (empty_graph : Graph Int Int) [.add_vertex 1, .add_edge 1 1 5] =
        some one_loop ∧
      has_vertex one_loop 2 = false ∧
      has_vertex one_loop 3 = false ∧
      num_edges one_loop = 1 ∧
      edge_weight one_loop 1 1 = some 5 ∧
      remove_edge true one_loop 2 3 =
        some (5, { v_count := 1, e_count := 0, vertex_index := [(1, 0), (2, 0), (3, 0)],
                   index_vertex := [1], adj_matrix := [[0, 0, 0]] }) ∧
      remove_edge false one_loop 2 3 =
        some (5, { v_count := 1, e_count := 0, vertex_index := [(1, 0), (2, 0), (3, 0)],
                   index_vertex := [1], adj_matrix := [[0, 0, 0]] }) := by
  decide

/-- C8, the code in undirected mode: after adding the vertices 1, 2, 3 and the
edge `1 - 3` of weight 5 and removing vertex 1, `get_edge(2, 3)` is 0 and
`get_edge(3, 2)` is 5. -/
theorem remove_vertex_breaks_symmetry :
    run false present_use (empty_graph : Graph Int Int)
        [.add_vertex 1, .add_vertex 2, .add_vertex 3, .add_edge 1 3 5, .remove_vertex 1] =
        some far_edge_cut ∧
      has_vertex far_edge_cut 2 = true ∧
      has_vertex far_edge_cut 3 = true ∧
      edge_weight far_edge_cut 2 3 = some 0 ∧
      edge_weight far_edge_cut 3 2 = some 5 := by
  decide

/-- C16, the code after a removal: in the directed graph with the vertices 1, 2
and the edge `1 -> 2` of weight 5, `remove_vertex(2)` leaves the 5 in column 1
of the row of vertex 1; the fresh vertex 3 then gets index 1, and after
`add_vertex(3)` `get_edge(1, 3)` is 5 and `get_neighbors(1)` is `[3]`, while
`get_edge(3, 1)` is 0 and `get_neighbors(3)` is empty. -/
theorem add_vertex_inherits_column :
    run true present_use (empty_graph : Graph Int Int)
        [.add_vertex 1, .add_vertex 2, .add_edge 1 2 5, .remove_vertex 2] =
        some forward_edge_cut ∧
      has_vertex forward_edge_cut 3 = false ∧
      add_vertex forward_edge_cut 3 = some forward_edge_cut_grown ∧
      edge_weight forward_edge_cut_grown 1 3 = some 5 ∧
      edge_weight forward_edge_cut_grown 3 1 = some 0 ∧
      (get_neighbors forward_edge_cut_grown 1).map Prod.fst = some [3] ∧
      (get_neighbors forward_edge_cut_grown 3).map Prod.fst = some [] := by
  decide

/-- C17: for every graph state, in both modes, `remove_vertex(v)` for a value
`v` with `has_vertex(v)` false returns `V()` and leaves the whole state (the
counters, the map, the sequence and the matrix) as it was. -/
theorem remove_vertex_absent_unchanged {V E : Type} [DecidableEq V] [DecidableEq E]
    [Inhabited V] [Inhabited E] (D : Bool) (g : Graph V E) (v : V)
    (hv : has_vertex g v = false) :
    remove_vertex D g v = some (default, g) :=
  remove_vertex_absent D g hv

/-- C17 at the vertex 2 of the graph with the single vertex 1. -/
theorem remove_vertex_absent_unchanged_witness :
    has_vertex one_vertex 2 = false ∧ remove_vertex true one_vertex 2 = some (default, one_vertex) :=
  ⟨by decide, remove_vertex_absent_unchanged true one_vertex 2 (by decide)⟩

/-- C18: for every graph state, every weight and every `v1`, `v2` of which at
least one is not a vertex, `add_edge(v1, v2, weight)` leaves the whole state
(the counters, the map, the sequence and the matrix) as it was, in both
modes. -/
theorem add_edge_absent_unchanged {V E : Type} [DecidableEq V] [DecidableEq E]
    [Inhabited V] [Inhabited E] (D : Bool) (g : Graph V E) (v1 v2 : V) (weight : E)
    (h : has_vertex g v1 = false ∨ has_vertex g v2 = false) :
    add_edge D g v1 v2 weight = some g :=
  add_edge_absent D g weight h

/-- C18 at `add_edge(1, 2, 5)` on the graph with the single vertex 1, in both
modes. -/
theorem add_edge_absent_unchanged_witness :
    (has_vertex one_vertex 1 = false ∨ has_vertex one_vertex 2 = false) ∧
      add_edge true one_vertex 1 2 5 = some one_vertex ∧
      add_edge false one_vertex 1 2 5 = some one_vertex :=
  ⟨by decide, add_edge_absent_unchanged true one_vertex 1 2 5 (by decide),
    add_edge_absent_unchanged false one_vertex 1 2 5 (by decide)⟩

/-- C11: for every list `vs` of pairwise distinct values, calling `add_vertex`
on each element of `vs` in order, from the empty graph, returns a graph with
`num_vertices() == length(vs)` in which `has_vertex(v)` is true and
`get_vertex(v) == v` for every `v` in `vs`, and `has_vertex(x)` is false and
`get_vertex(x)` is `V()` for every `x` not in `vs`. -/
theorem add_vertices_distinct {V E : Type} [DecidableEq V] [DecidableEq E]
    [Inhabited V] [Inhabited E] (vs : List V) (hnd : vs.Nodup) :
    ∃ g : Graph V E, add_vertices empty_graph vs = some g ∧
      num_vertices g = (vs.length : Int) ∧
      (∀ v ∈ vs, has_vertex g v = true ∧ get_vertex g v = v) ∧
      (∀ x, x ∉ vs → has_vertex g x = false ∧ get_vertex g x = default) := by
  obtain ⟨g, heq, hwf, hseq⟩ := (wf_empty_graph (V := V) (E := E)).add_vertices_seq vs hnd
    (fun v _ => by simp [has_vertex, empty_graph, map_find])
  have hseq2 : g.index_vertex = vs := by simpa [empty_graph] using hseq
  refine ⟨g, heq, ?_, ?_, ?_⟩
  · rw [num_vertices, hwf.count_eq, hseq2]
  · intro v hv
    have hp : has_vertex g v = true := (hwf.has_vertex_iff v).2 (hseq2 ▸ hv)
    exact ⟨hp, by simp [get_vertex, hp]⟩
  · intro x hx
    have hp : has_vertex g x = false := by
      rw [← Bool.not_eq_true, hwf.has_vertex_iff, hseq2]
      exact hx
    exact ⟨hp, by simp [get_vertex, hp]⟩

/-- C11 at the list `[4, 7, 9]`. -/
theorem add_vertices_distinct_witness :
    ([4, 7, 9] : List Int).Nodup ∧
      ∃ g : Graph Int Int, add_vertices empty_graph [4, 7, 9] = some g ∧
        num_vertices g = (([4, 7, 9] : List Int).length : Int) ∧
        (∀ v ∈ ([4, 7, 9] : List Int), has_vertex g v = true ∧ get_vertex g v = v) ∧
        (∀ x, x ∉ ([4, 7, 9] : List Int) → has_vertex g x = false ∧ get_vertex g x = default) :=
  ⟨by decide, add_vertices_distinct [4, 7, 9] (by decide)⟩

/-- C12: in every state reached from the empty graph by `add_vertex` with
values that are not vertices yet and `add_edge`, `remove_edge`, `remove_vertex`
on present vertices, for present `v1`, `v2` and a weight `w` other than `E()`,
`add_edge(v1, v2, w)` returns, and afterwards `has_edge(v1, v2)` is true and
`get_edge(v1, v2) == w`; in an undirected graph also `get_edge(v2, v1) == w`; in
a directed graph with `v1 != v2`, `get_edge(v2, v1)` is what it was before. -/
theorem add_edge_postcondition {V E : Type} [DecidableEq V] [DecidableEq E]
    [Inhabited V] [Inhabited E] (D : Bool) (ops : List (Op V E)) (g : Graph V E)
    (v1 v2 : V) (w : E)
    (hrun : run D present_use empty_graph ops = some g)
    (h1 : has_vertex g v1 = true) (h2 : has_vertex g v2 = true) (hw : w ≠ default) :
    ∃ g2, add_edge D g v1 v2 w = some g2 ∧
      (has_edge g2 v1 v2).map Prod.fst = some true ∧
      edge_weight g2 v1 v2 = some w ∧
      (D = false → edge_weight g2 v2 v1 = some w) ∧
      (D = true → v1 ≠ v2 → edge_weight g2 v2 v1 = edge_weight g v2 v1) := by
  have hwf := run_present_wf D ops hrun
  obtain ⟨r, _, _, hr⟩ := hwf.index_of_has_vertex h1
  obtain ⟨c, _, _, hc⟩ := hwf.index_of_has_vertex h2
  obtain ⟨g2, heq, hwf2, hseq, _, _, _, hcells⟩ := hwf.add_edge_cells D w hr hc
  have hr2 : g2.index_vertex[r]? = some v1 := by rw [hseq]; exact hr
  have hc2 : g2.index_vertex[c]? = some v2 := by rw [hseq]; exact hc
  refine ⟨g2, heq, ?_, ?_, ?_, ?_⟩
  · rw [hwf2.has_edge_cell hr2 hc2, hcells]
    simp [hw]
  · rw [hwf2.edge_weight_cell hr2 hc2, hcells]
    simp
  · intro hD
    rw [hwf2.edge_weight_cell hc2 hr2, hcells]
    simp [hD]
  · intro hD hne
    have hrc : r ≠ c := by
      intro e
      rw [e, hc] at hr
      exact hne (Option.some.inj hr).symm
    rw [hwf2.edge_weight_cell hc2 hr2, hwf.edge_weight_cell hc hr, hcells]
    simp [hD, hrc, Ne.symm hrc]

/-- C12 at `add_edge(2, 1, 9)` on the directed graph with the vertices 1, 2 and
the edge `1 -> 2`. -/
theorem add_edge_postcondition_witness :
    run true present_use (empty_graph : Graph Int Int)
        [.add_vertex 1, .add_vertex 2, .add_edge 1 2 5] = some one_edge ∧
      has_vertex one_edge 2 = true ∧ has_vertex one_edge 1 = true ∧ (9 : Int) ≠ default ∧
      ∃ g2, add_edge true one_edge 2 1 9 = some g2 ∧
        (has_edge g2 2 1).map Prod.fst = some true ∧
        edge_weight g2 2 1 = some 9 ∧
        (true = false → edge_weight g2 1 2 = some 9) ∧
        (true = true → (2 : Int) ≠ 1 → edge_weight g2 1 2 = edge_weight one_edge 1 2) :=
  ⟨by decide, by decide, by decide, by decide,
    add_edge_postcondition true [.add_vertex 1, .add_vertex 2, .add_edge 1 2 5] one_edge 2 1 9
      (by decide) (by decide) (by decide) (by decide)⟩

/-- C13: in every state reached from the empty graph by `add_vertex` with
values that are not vertices yet and `add_edge`, `remove_edge`, `remove_vertex`
on present vertices, for present `v1`, `v2` and a weight `w` other than `E()`,
`remove_edge(v1, v2)` right after `add_edge(v1, v2, w)` returns `w` and leaves
`has_edge(v1, v2)` false; in an undirected graph `remove_edge(v2, v1)` right
after `add_edge(v1, v2, w)` returns `w` too and leaves both `get_edge(v1, v2)`
and `get_edge(v2, v1)` equal to `E()`. -/
theorem edge_round_trip {V E : Type} [DecidableEq V] [DecidableEq E]
    [Inhabited V] [Inhabited E] (D : Bool) (ops : List (Op V E)) (g : Graph V E)
    (v1 v2 : V) (w : E)
    (hrun : run D present_use empty_graph ops = some g)
    (h1 : has_vertex g v1 = true) (h2 : has_vertex g v2 = true) (hw : w ≠ default) :
    ∃ g2, add_edge D g v1 v2 w = some g2 ∧
      (∃ g3, remove_edge D g2 v1 v2 = some (w, g3) ∧
        (has_edge g3 v1 v2).map Prod.fst = some false) ∧
      (D = false → ∃ g3, remove_edge D g2 v2 v1 = some (w, g3) ∧
        edge_weight g3 v1 v2 = some default ∧ edge_weight g3 v2 v1 = some default) := by
  have hwf := run_present_wf D ops hrun
  obtain ⟨r, _, _, hr⟩ := hwf.index_of_has_vertex h1
  obtain ⟨c, _, _, hc⟩ := hwf.index_of_has_vertex h2
  obtain ⟨g2, heq, hwf2, hseq, _, _, _, hcells⟩ := hwf.add_edge_cells D w hr hc
  have hr2 : g2.index_vertex[r]? = some v1 := by rw [hseq]; exact hr
  have hc2 : g2.index_vertex[c]? = some v2 := by rw [hseq]; exact hc
  have hrc : cell_or_default g2.adj_matrix r c = w := by rw [hcells]; simp
  refine ⟨g2, heq, ?_, ?_⟩
  · obtain ⟨g3, heq3, hwf3, hseq3, _, _, _, hcells3⟩ := hwf2.remove_edge_cells D hr2 hc2
    have hr3 : g3.index_vertex[r]? = some v1 := by rw [hseq3]; exact hr2
    have hc3 : g3.index_vertex[c]? = some v2 := by rw [hseq3]; exact hc2
    refine ⟨g3, by rw [heq3, hrc], ?_⟩
    rw [hwf3.has_edge_cell hr3 hc3, hcells3, hrc]
    simp [hw]
  · intro hD
    have hcr : cell_or_default g2.adj_matrix c r = w := by rw [hcells]; simp [hD]
    obtain ⟨g3, heq3, hwf3, hseq3, _, _, _, hcells3⟩ := hwf2.remove_edge_cells D hc2 hr2
    have hr3 : g3.index_vertex[r]? = some v1 := by rw [hseq3]; exact hr2
    have hc3 : g3.index_vertex[c]? = some v2 := by rw [hseq3]; exact hc2
    refine ⟨g3, by rw [heq3, hcr], ?_, ?_⟩
    · rw [hwf3.edge_weight_cell hr3 hc3, hcells3, hcr]
      simp [hw, hD]
    · rw [hwf3.edge_weight_cell hc3 hr3, hcells3, hcr]
      simp [hw]

/-- C13 at `add_edge(1, 2, 3)` on the undirected graph with the vertices 1, 2:
the scenario of the specification, `remove_edge(2, 1)` included. -/
theorem edge_round_trip_witness :
    run false present_use (empty_graph : Graph Int Int) [.add_vertex 1, .add_vertex 2] =
        some two_vertices ∧
      has_vertex two_vertices 1 = true ∧ has_vertex two_vertices 2 = true ∧
      (3 : Int) ≠ default ∧
      ∃ g2, add_edge false two_vertices 1 2 3 = some g2 ∧
        (∃ g3, remove_edge false g2 1 2 = some (3, g3) ∧
          (has_edge g3 1 2).map Prod.fst = some false) ∧
        (false = false → ∃ g3, remove_edge false g2 2 1 = some (3, g3) ∧
          edge_weight g3 1 2 = some default ∧ edge_weight g3 2 1 = some default) :=
  ⟨by decide, by decide, by decide, by decide,
    edge_round_trip false [.add_vertex 1, .add_vertex 2] two_vertices 1 2 3
      (by decide) (by decide) (by decide) (by decide)⟩

/-- C14: in every state reached from the empty graph by `add_vertex` with
values that are not vertices yet and `add_edge`, `remove_edge` on present
vertices, `get_neighbors(v)` for a present `v` returns `index_vertex` filtered,
in its order and without repetition, to the vertices `u` with
`get_edge(v, u) != E()`, and for a value `v` that is not a vertex it returns the
empty sequence; in both cases the graph is left as it was. -/
theorem get_neighbors_filter {V E : Type} [DecidableEq V] [DecidableEq E]
    [Inhabited V] [Inhabited E] (D : Bool) (ops : List (Op V E)) (g : Graph V E) (v : V)
    (hrun : run D edge_use empty_graph ops = some g) :
    (has_vertex g v = true →
        get_neighbors g v = some (g.index_vertex.filter (fun u => edge_present g v u), g) ∧
        (g.index_vertex.filter (fun u => edge_present g v u)).Nodup) ∧
      (has_vertex g v = false → get_neighbors g v = some ([], g)) := by
  have hwf := run_careful_wf D ops wf_empty_graph (run_mono careful_of_edge_use ops hrun)
  refine ⟨fun hv => ?_, fun hv => get_neighbors_absent g hv⟩
  obtain ⟨r, _, _, hr⟩ := hwf.index_of_has_vertex hv
  exact ⟨hwf.get_neighbors_eq hr, hwf.seq_nodup.filter _⟩

/-- C14 at the scenario of the specification: vertices 1, 2, 3 and the directed
edges `1 -> 2`, `2 -> 3`; `get_neighbors(1)` is `[2]`. -/
theorem get_neighbors_filter_witness :
    run true edge_use (empty_graph : Graph Int Int)
        [.add_vertex 1, .add_vertex 2, .add_vertex 3, .add_edge 1 2 5, .add_edge 2 3 7] =
        some path_graph ∧
      path_graph.index_vertex.filter (fun u => edge_present path_graph 1 u) = [2] ∧
      has_vertex path_graph 1 = true ∧
      ((has_vertex path_graph 1 = true →
          get_neighbors path_graph 1 =
            some (path_graph.index_vertex.filter (fun u => edge_present path_graph 1 u),
              path_graph) ∧
          (path_graph.index_vertex.filter (fun u => edge_present path_graph 1 u)).Nodup) ∧
        (has_vertex path_graph 1 = false → get_neighbors path_graph 1 = some ([], path_graph))) :=
  ⟨by decide, by decide, by decide,
    get_neighbors_filter true
      [.add_vertex 1, .add_vertex 2, .add_vertex 3, .add_edge 1 2 5, .add_edge 2 3 7]
      path_graph 1 (by decide)⟩

/-- C19: in every state reached from the empty graph by `add_vertex` with
values that are not vertices at the time of the call, `add_edge` and
`remove_vertex` with any arguments, and `has_edge`, `remove_edge` between two
vertices: the sequence has length `num_vertices()` and no repeated value, the
keys of the map are exactly the elements of the sequence, each once, the map
sends `index_vertex[i]` to `i` for every `i`, and `remove_vertex` of the vertex
at index `r` returns and leaves every other vertex at its index, less one when
that index was above `r`. -/
theorem index_bijection_well_formed_use {V E : Type} [DecidableEq V] [DecidableEq E]
    [Inhabited V] [Inhabited E] (D : Bool) (ops : List (Op V E)) (g : Graph V E)
    (hrun : run D careful_use empty_graph ops = some g) :
    (g.index_vertex.length : Int) = num_vertices g ∧
      g.index_vertex.Nodup ∧
      (g.vertex_index.map Prod.fst).Nodup ∧
      (∀ v : V, v ∈ g.vertex_index.map Prod.fst ↔ v ∈ g.index_vertex) ∧
      (∀ (i : Nat) (v : V), g.index_vertex[i]? = some v →
        map_find g.vertex_index v = some (i : Int)) ∧
      (∀ (v : V) (r : Int), map_find g.vertex_index v = some r →
        ∃ g2, remove_vertex D g v = some (default, g2) ∧
          ∀ (u : V) (x : Int), u ≠ v → map_find g.vertex_index u = some x →
            map_find g2.vertex_index u = some (if r < x then x - 1 else x)) := by
  have h := run_careful_wf D ops wf_empty_graph hrun
  refine ⟨h.count_eq.symm, h.seq_nodup, h.keys_nodup, h.mem_keys_iff,
    fun i v hs => h.find_of_seq hs, ?_⟩
  intro v r hf
  obtain ⟨i, hi, hs⟩ := (h.find_iff v r).1 hf
  rw [hi]
  exact h.remove_vertex_renumbers D hs

/-- C19 at a run that adds three vertices and an edge, asks for an edge and
removes the first vertex. -/
theorem index_bijection_well_formed_use_witness :
    run true careful_use (empty_graph : Graph Int Int)
        [.add_vertex 1, .add_vertex 2, .add_vertex 3, .add_edge 1 2 5, .has_edge 2 3,
          .remove_vertex 1] = some near_edge_cut ∧
      ((near_edge_cut.index_vertex.length : Int) = num_vertices near_edge_cut ∧
        near_edge_cut.index_vertex.Nodup ∧
        (near_edge_cut.vertex_index.map Prod.fst).Nodup ∧
        (∀ v : Int, v ∈ near_edge_cut.vertex_index.map Prod.fst ↔
          v ∈ near_edge_cut.index_vertex) ∧
        (∀ (i : Nat) (v : Int), near_edge_cut.index_vertex[i]? = some v →
          map_find near_edge_cut.vertex_index v = some (i : Int)) ∧
        (∀ (v : Int) (r : Int), map_find near_edge_cut.vertex_index v = some r →
          ∃ g2, remove_vertex true near_edge_cut v = some (default, g2) ∧
            ∀ (u : Int) (x : Int), u ≠ v → map_find near_edge_cut.vertex_index u = some x →
              map_find g2.vertex_index u = some (if r < x then x - 1 else x))) :=
  ⟨by decide,
    index_bijection_well_formed_use true
      [.add_vertex 1, .add_vertex 2, .add_vertex 3, .add_edge 1 2 5, .has_edge 2 3,
        .remove_vertex 1] near_edge_cut (by decide)⟩

/-- C20: in every state reached from the empty graph by `add_vertex` with
values that are not vertices at the time of the call, `add_edge` and
`remove_vertex` with any arguments, and `has_edge`, `remove_edge` between two
vertices: the matrix has `num_vertices()` rows of at least `num_vertices()`
cells each, every index stored in the map is in `[0, num_vertices())`, and no
call runs out of range: `get_edge`, `add_edge`, `get_neighbors` and
`remove_vertex` return for all arguments, `has_edge` and `remove_edge` return
for two vertices, and `add_vertex` returns for a value that is not a vertex. -/
theorem bounds_safe_well_formed_use {V E : Type} [DecidableEq V] [DecidableEq E]
    [Inhabited V] [Inhabited E] (D : Bool) (ops : List (Op V E)) (g : Graph V E)
    (hrun : run D careful_use empty_graph ops = some g) :
    (g.adj_matrix.length : Int) = num_vertices g ∧
      (∀ row ∈ g.adj_matrix, num_vertices g ≤ (row.length : Int)) ∧
      (∀ p ∈ g.vertex_index, 0 ≤ p.2 ∧ p.2 < num_vertices g) ∧
      (∀ v1 v2 : V, (get_edge g v1 v2).isSome = true) ∧
      (∀ (v1 v2 : V) (w : E), (add_edge D g v1 v2 w).isSome = true) ∧
      (∀ v : V, (get_neighbors g v).isSome = true) ∧
      (∀ v : V, (remove_vertex D g v).isSome = true) ∧
      (∀ v1 v2 : V, has_vertex g v1 = true → has_vertex g v2 = true →
        (has_edge g v1 v2).isSome = true ∧ (remove_edge D g v1 v2).isSome = true) ∧
      (∀ v : V, has_vertex g v = false → (add_vertex g v).isSome = true) := by
  have h := run_careful_wf D ops wf_empty_graph hrun
  refine ⟨?_, ?_, h.entry_bounds, ?_, ?_, ?_, ?_, ?_, ?_⟩
  · rw [num_vertices, h.count_eq, h.rows]
  · intro row hrow
    rw [num_vertices, h.count_eq]
    exact_mod_cast h.row_length row hrow
  · intro v1 v2
    obtain ⟨x, hx⟩ := h.get_edge_some v1 v2
    simp [hx]
  · intro v1 v2 w
    obtain ⟨g2, hx, _⟩ := h.add_edge_ok D v1 v2 w
    simp [hx]
  · intro v
    obtain ⟨ns, hx⟩ := h.get_neighbors_some v
    simp [hx]
  · intro v
    obtain ⟨g2, hx, _⟩ := h.remove_vertex_ok D v
    simp [hx]
  · intro v1 v2 h1 h2
    obtain ⟨b, hb⟩ := h.has_edge_ok h1 h2
    obtain ⟨x, g2, hx, _⟩ := h.remove_edge_ok D h1 h2
    simp [hb, hx]
  · intro v hv
    obtain ⟨g2, hx, _⟩ := h.add_vertex_ok hv
    simp [hx]

/-- C20 at a run that adds three vertices and an edge, asks for an edge and
removes the second vertex. -/
theorem bounds_safe_well_formed_use_witness :
    run true careful_use (empty_graph : Graph Int Int)
        [.add_vertex 1, .add_vertex 2, .add_vertex 3, .add_edge 1 2 5, .add_edge 2 3 7,
          .has_edge 1 3, .remove_vertex 2] = some path_graph_cut ∧
      ((path_graph_cut.adj_matrix.length : Int) = num_vertices path_graph_cut ∧
        (∀ row ∈ path_graph_cut.adj_matrix, num_vertices path_graph_cut ≤ (row.length : Int)) ∧
        (∀ p ∈ path_graph_cut.vertex_index, 0 ≤ p.2 ∧ p.2 < num_vertices path_graph_cut) ∧
        (∀ v1 v2 : Int, (get_edge path_graph_cut v1 v2).isSome = true) ∧
        (∀ (v1 v2 : Int) (w : Int), (add_edge true path_graph_cut v1 v2 w).isSome = true) ∧
        (∀ v : Int, (get_neighbors path_graph_cut v).isSome = true) ∧
        (∀ v : Int, (remove_vertex true path_graph_cut v).isSome = true) ∧
        (∀ v1 v2 : Int, has_vertex path_graph_cut v1 = true →
          has_vertex path_graph_cut v2 = true →
          (has_edge path_graph_cut v1 v2).isSome = true ∧
            (remove_edge true path_graph_cut v1 v2).isSome = true) ∧
        (∀ v : Int, has_vertex path_graph_cut v = false →
          (add_vertex path_graph_cut v).isSome = true)) :=
  ⟨by decide,
    bounds_safe_well_formed_use true
      [.add_vertex 1, .add_vertex 2, .add_vertex 3, .add_edge 1 2 5, .add_edge 2 3 7,
        .has_edge 1 3, .remove_vertex 2] path_graph_cut (by decide)⟩

end AdjMatrixGraph
